import Mathlib

/-! Bounded protected buffer: condition-variable and semaphore variants.

A shallow embedding of `cond_protected_buffer.c` and `sem_protected_buffer.c`.

* A `void *` is a natural number, `NULL` being `0`.
* A call runs in the `Exec` monad: it threads the shared structure
  `protected_buffer_t` and appends one `Event` to a trace for every call of a
  pthread / semaphore / storage primitive, in program order.
* `pthread_cond_wait` and `pthread_cond_timedwait` release the mutex while the
  caller sleeps, so the storage found on wake-up is chosen by the environment:
  a `Wake` carries the value returned by the wait and the storage found.
* A call that never returns (a wait nobody ends) or that aborts on a failed
  `assert` yields a `Fault`.
* Semaphore counts are natural numbers; `sem_open` is taken to succeed and
  `sem_wait` to return only once it has decremented.
* The deadline `abstime` of `offer` and `poll` is a `timespec`. `sem_timedwait`
  refuses an invalid one before it tries the decrement, as glibc does;
  `pthread_cond_timedwait` returns what the wake-up carries.
* `circular_buffer.c`, `protected_buffer.h` and `utils.c` are not among the
  sources; the storage is the bounded FIFO the specification describes.
* Sequential executions (`run`) call the operations one after another with no
  other thread; `System.step` interleaves the primitives of several threads of
  the semaphore variant.
-/

namespace ProtectedBuffer

/-- A `void *`; the null pointer is `0`. -/
abbrev ptr := Nat

/-- The null pointer. -/
def NULL : ptr := 0

/-- The value of `ETIMEDOUT` in `errno.h` (Linux). -/
def ETIMEDOUT : Int := 110

/-- The `struct timespec` of `time.h`: an absolute deadline. -/
structure timespec where
  tv_sec : Int
  tv_nsec : Int
deriving DecidableEq, Repr

/-- The deadline is one the timed waits accept: its nanoseconds lie in
`[0, 1000000000)`. -/
def timespec.valid (abstime : timespec) : Prop :=
  0 ≤ abstime.tv_nsec ∧ abstime.tv_nsec < 1000000000

instance timespec.decidable_valid (abstime : timespec) : Decidable abstime.valid :=
  inferInstanceAs (Decidable (0 ≤ abstime.tv_nsec ∧ abstime.tv_nsec < 1000000000))

/-- Modelled from the spec: the type `circular_buffer_t` of `circular_buffer.h`,
which is absent from the sources. The spec describes a fixed-capacity sequential
FIFO storage; `max_size` is its capacity and `items` its contents, oldest first. -/
structure circular_buffer_t where
  max_size : Nat
  items : List ptr
deriving DecidableEq, Repr

/-- Modelled from the spec: the field `size` of `circular_buffer_t`
(the number of stored items), read by the source as `b->buffer->size`. -/
def circular_buffer_t.size (b : circular_buffer_t) : Nat := b.items.length

/-- Modelled from the spec: `circular_buffer_init` of the absent `circular_buffer.c`.
The storage is pre-allocated empty with the given capacity; a negative capacity is
a misuse that is fatal at construction. -/
def circular_buffer_init (length : Int) : Option circular_buffer_t :=
  if length < 0 then none else some { max_size := length.toNat, items := [] }

/-- Modelled from the spec: `circular_buffer_size` of the absent `circular_buffer.c`. -/
def circular_buffer_size (b : circular_buffer_t) : Nat := b.size

/-- Modelled from the spec: `circular_buffer_put` of the absent `circular_buffer.c`:
`put(item) -> bool`; a full storage rejects the insert (returns 0, no change),
otherwise the item is appended and 1 is returned. -/
def circular_buffer_put (b : circular_buffer_t) (d : ptr) : circular_buffer_t × Int :=
  if b.size = b.max_size then (b, 0) else ({ b with items := b.items ++ [d] }, 1)

/-- Modelled from the spec: `circular_buffer_get` of the absent `circular_buffer.c`:
`get() -> item`; an empty storage returns the sentinel `NULL` without change,
otherwise the oldest item is removed and returned. -/
def circular_buffer_get (b : circular_buffer_t) : circular_buffer_t × ptr :=
  match b.items with
  | [] => (b, NULL)
  | x :: rest => ({ b with items := rest }, x)

/-- Modelled from the spec: the type `protected_buffer_t` of `protected_buffer.h`,
which is absent from the sources, with the fields the sources use: the storage
`buffer` and the two semaphores, each as its count. The mutex `mut` and the
condition variables `cond_full`, `cond_empty` carry no data of their own; their
use is recorded in the trace. -/
structure protected_buffer_t where
  buffer : circular_buffer_t
  sem_full : Nat
  sem_empty : Nat
deriving DecidableEq, Repr

/-- The two condition variables of `protected_buffer_t`. -/
inductive Cond where
  | cond_full
  | cond_empty
deriving DecidableEq, Repr

/-- The two semaphores of `protected_buffer_t`. -/
inductive Sem where
  | sem_full
  | sem_empty
deriving DecidableEq, Repr

/-- The six operations, used as the label of `print_task_activity`. -/
inductive OpName where
  | get | put | remove | add | poll | offer
deriving DecidableEq, Repr

/-- One call of a primitive, with its arguments and result. For `buffer_get`,
`removed` tells whether the storage held an item, hence whether one was removed. -/
inductive Event where
  | mutex_lock
  | mutex_unlock
  | cond_wait (c : Cond)
  | cond_timedwait (c : Cond) (r : Int)
  | cond_signal (c : Cond)
  | sem_wait (s : Sem)
  | sem_trywait (s : Sem) (rc : Int)
  | sem_timedwait (s : Sem) (rc : Int)
  | sem_post (s : Sem)
  | read_size (n : Nat)
  | buffer_get (d : ptr) (removed : Bool)
  | buffer_put (d : ptr) (done : Int)
  | print_task_activity (op : OpName) (d : ptr)
deriving DecidableEq, Repr

/-- What the environment decides when a condition wait ends: the value the wait
returns and the storage the caller finds once it holds the mutex again. -/
structure Wake where
  r : Int
  buffer : circular_buffer_t
deriving DecidableEq, Repr

/-- Why a call does not return. -/
inductive Fault where
  | blocked
  | assertion_failed
deriving DecidableEq, Repr

/-- The state a call runs on: the shared structure and the trace so far. -/
structure Thread where
  b : protected_buffer_t
  trace : List Event
deriving DecidableEq, Repr

/-- A computation of a call. -/
def Exec (α : Type) : Type := Thread → Except Fault (α × Thread)

/-- Return a value without effect. -/
def Exec.pure {α : Type} (a : α) : Exec α := fun s => Except.ok (a, s)

/-- Sequence two computations; a fault ends the call. -/
def Exec.bind {α β : Type} (m : Exec α) (f : α → Exec β) : Exec β := fun s =>
  match m s with
  | Except.error e => Except.error e
  | Except.ok (a, s1) => f a s1

instance : Monad Exec where
  pure := Exec.pure
  bind := Exec.bind

/-- Append an event to the trace. -/
def emit (e : Event) : Exec Unit := fun s =>
  Except.ok ((), { s with trace := s.trace ++ [e] })

/-- The macro `assert`. -/
def assert (c : Bool) : Exec Unit := fun s =>
  if c then Except.ok ((), s) else Except.error Fault.assertion_failed

/-- The call `pthread_mutex_lock(&b->mut)`. -/
def pthread_mutex_lock : Exec Unit := emit Event.mutex_lock

/-- The call `pthread_mutex_unlock(&b->mut)`. -/
def pthread_mutex_unlock : Exec Unit := emit Event.mutex_unlock

/-- The call `pthread_cond_signal(&b->c)`. -/
def pthread_cond_signal (c : Cond) : Exec Unit := emit (Event.cond_signal c)

/-- The call `pthread_cond_wait(&b->c, &b->mut)`: with no wake-up left the caller
sleeps for ever; otherwise it returns holding the mutex and finds the storage the
wake-up carries. -/
def pthread_cond_wait (c : Cond) (w : Option Wake) : Exec Unit := fun s =>
  match w with
  | none => Except.error Fault.blocked
  | some w =>
    Except.ok ((), { b := { s.b with buffer := w.buffer },
                     trace := s.trace ++ [Event.cond_wait c] })

/-- The call `pthread_cond_timedwait(&b->c, &b->mut, abstime)`. The value it
returns depends on `abstime` and on the other threads (0 on a wake-up,
`ETIMEDOUT` once the deadline has passed, `EINVAL` for an invalid `abstime`): it
is the value the wake-up carries, whatever `abstime` is. The caller holds the
mutex again. -/
def pthread_cond_timedwait (c : Cond) (_abstime : timespec) (w : Wake) : Exec Int := fun s =>
  Except.ok (w.r, { b := { s.b with buffer := w.buffer },
                    trace := s.trace ++ [Event.cond_timedwait c w.r] })

/-- A read of `b->buffer->size`. -/
def read_size : Exec Nat := fun s =>
  Except.ok (s.b.buffer.size, { s with trace := s.trace ++ [Event.read_size s.b.buffer.size] })

/-- A read of `b->buffer->max_size`. -/
def read_max_size : Exec Nat := fun s => Except.ok (s.b.buffer.max_size, s)

/-- The call `circular_buffer_size(b->buffer)`. -/
def call_circular_buffer_size : Exec Nat := fun s =>
  Except.ok (circular_buffer_size s.b.buffer,
    { s with trace := s.trace ++ [Event.read_size (circular_buffer_size s.b.buffer)] })

/-- The call `circular_buffer_get(b->buffer)`. -/
def call_circular_buffer_get : Exec ptr := fun s =>
  Except.ok ((circular_buffer_get s.b.buffer).2,
    { b := { s.b with buffer := (circular_buffer_get s.b.buffer).1 },
      trace := s.trace ++ [Event.buffer_get (circular_buffer_get s.b.buffer).2
        (decide (0 < s.b.buffer.size))] })

/-- The call `circular_buffer_put(b->buffer, d)`. -/
def call_circular_buffer_put (d : ptr) : Exec Int := fun s =>
  Except.ok ((circular_buffer_put s.b.buffer d).2,
    { b := { s.b with buffer := (circular_buffer_put s.b.buffer d).1 },
      trace := s.trace ++ [Event.buffer_put d (circular_buffer_put s.b.buffer d).2] })

/-- Modelled from the spec: `print_task_activity` of the absent `utils.c`, a
diagnostic side channel that reports the operation and its item and has no
effect on the buffer. -/
def print_task_activity (op : OpName) (d : ptr) : Exec Unit :=
  emit (Event.print_task_activity op d)

/-! ## cond_protected_buffer.c -/

/-- The function `cond_protected_buffer_init`. It does not open the semaphores,
which this variant never uses; their counts are put at 0. -/
def cond_protected_buffer_init (length : Int) : Option protected_buffer_t :=
  match circular_buffer_init length with
  | none => none
  | some buf => some { buffer := buf, sem_full := 0, sem_empty := 0 }

/-- The loop `while(!circular_buffer_size(b->buffer)) pthread_cond_wait(&b->cond_full, &b->mut);`
of `cond_protected_buffer_get`, run against the wake-ups the call will receive. -/
def cond_get_wait : List Wake → Exec Unit
  | [] => do
      let n ← call_circular_buffer_size
      if n = 0 then pthread_cond_wait Cond.cond_full none else pure ()
  | w :: ws => do
      let n ← call_circular_buffer_size
      if n = 0 then do
        pthread_cond_wait Cond.cond_full (some w)
        cond_get_wait ws
      else pure ()

/-- The function `cond_protected_buffer_get`. -/
def cond_protected_buffer_get (env : List Wake) : Exec ptr := do
  pthread_mutex_lock
  cond_get_wait env
  let d ← call_circular_buffer_get
  print_task_activity OpName.get d
  pthread_cond_signal Cond.cond_empty
  pthread_mutex_unlock
  pure d

/-- The loop `while(b->buffer->size == b->buffer->max_size) pthread_cond_wait(&b->cond_empty, &b->mut);`
of `cond_protected_buffer_put`, run against the wake-ups the call will receive. -/
def cond_put_wait : List Wake → Exec Unit
  | [] => do
      let n ← read_size
      let m ← read_max_size
      if n = m then pthread_cond_wait Cond.cond_empty none else pure ()
  | w :: ws => do
      let n ← read_size
      let m ← read_max_size
      if n = m then do
        pthread_cond_wait Cond.cond_empty (some w)
        cond_put_wait ws
      else pure ()

/-- The function `cond_protected_buffer_put`. -/
def cond_protected_buffer_put (d : ptr) (env : List Wake) : Exec Unit := do
  pthread_mutex_lock
  cond_put_wait env
  let _ ← call_circular_buffer_put d
  print_task_activity OpName.put d
  pthread_cond_signal Cond.cond_full
  pthread_mutex_unlock

/-- The function `cond_protected_buffer_remove`. -/
def cond_protected_buffer_remove : Exec ptr := do
  pthread_mutex_lock
  let d ← call_circular_buffer_get
  print_task_activity OpName.remove d
  pthread_cond_signal Cond.cond_empty
  pthread_mutex_unlock
  pure d

/-- The function `cond_protected_buffer_add`. -/
def cond_protected_buffer_add (d : ptr) : Exec Int := do
  pthread_mutex_lock
  let done ← call_circular_buffer_put d
  let d := if done = 0 then NULL else d
  print_task_activity OpName.add d
  pthread_cond_signal Cond.cond_full
  pthread_mutex_unlock
  pure done

/-- The function `cond_protected_buffer_poll`; `w` is what the timed wait yields if
the call reaches it. -/
def cond_protected_buffer_poll (abstime : timespec) (w : Wake) : Exec ptr := do
  pthread_mutex_lock
  let n ← read_size
  let d ←
    if n = 0 then do
      let r ← pthread_cond_timedwait Cond.cond_full abstime w
      if r ≠ ETIMEDOUT then call_circular_buffer_get else pure NULL
    else call_circular_buffer_get
  print_task_activity OpName.poll d
  pthread_cond_signal Cond.cond_empty
  pthread_mutex_unlock
  pure d

/-- The function `cond_protected_buffer_offer`; `w` is what the timed wait yields if
the call reaches it. -/
def cond_protected_buffer_offer (d : ptr) (abstime : timespec) (w : Wake) : Exec Int := do
  pthread_mutex_lock
  let n ← read_size
  let m ← read_max_size
  let done ←
    if n = m then do
      let r ← pthread_cond_timedwait Cond.cond_empty abstime w
      if r ≠ ETIMEDOUT then do
        assert (r == 0)
        call_circular_buffer_put d
      else pure 0
    else call_circular_buffer_put d
  let d := if done = 0 then NULL else d
  print_task_activity OpName.offer d
  pthread_cond_signal Cond.cond_full
  pthread_mutex_unlock
  pure done

/-- Run a call on a buffer, from an empty trace. -/
def call {α : Type} (m : Exec α) (b : protected_buffer_t) : Except Fault (α × Thread) :=
  m { b := b, trace := [] }

/-! ## sem_protected_buffer.c -/

/-- The count of a semaphore. -/
def sem_count (s : Sem) (b : protected_buffer_t) : Nat :=
  match s with
  | Sem.sem_full => b.sem_full
  | Sem.sem_empty => b.sem_empty

/-- Set the count of a semaphore. -/
def sem_set (s : Sem) (v : Nat) (b : protected_buffer_t) : protected_buffer_t :=
  match s with
  | Sem.sem_full => { b with sem_full := v }
  | Sem.sem_empty => { b with sem_empty := v }

/-- The effect of `sem_post` on the structure: the count goes up by one. -/
def sem_post_count (s : Sem) (b : protected_buffer_t) : protected_buffer_t :=
  sem_set s (sem_count s b + 1) b

/-- The call `sem_wait(b->s)`: decrements a positive count; on a zero count the
caller sleeps until another thread posts, which within one call never happens. -/
def sem_wait (s : Sem) : Exec Unit := fun t =>
  if 0 < sem_count s t.b then
    Except.ok ((), { b := sem_set s (sem_count s t.b - 1) t.b,
                     trace := t.trace ++ [Event.sem_wait s] })
  else Except.error Fault.blocked

/-- The call `sem_trywait(b->s)`: decrements a positive count and returns 0;
on a zero count returns -1 at once. -/
def sem_trywait (s : Sem) : Exec Int := fun t =>
  if 0 < sem_count s t.b then
    Except.ok (0, { b := sem_set s (sem_count s t.b - 1) t.b,
                    trace := t.trace ++ [Event.sem_trywait s 0] })
  else Except.ok (-1, { t with trace := t.trace ++ [Event.sem_trywait s (-1)] })

/-- The call `sem_timedwait(b->s, abstime)`. As in glibc, an invalid `abstime` is
refused first: the call returns -1 (`EINVAL`) without trying the decrement.
Otherwise it decrements a positive count and returns 0; on a zero count, no
other thread posting while this call waits, it returns -1 once the deadline has
passed. -/
def sem_timedwait (s : Sem) (abstime : timespec) : Exec Int := fun t =>
  if ¬ abstime.valid then
    Except.ok (-1, { t with trace := t.trace ++ [Event.sem_timedwait s (-1)] })
  else if 0 < sem_count s t.b then
    Except.ok (0, { b := sem_set s (sem_count s t.b - 1) t.b,
                    trace := t.trace ++ [Event.sem_timedwait s 0] })
  else Except.ok (-1, { t with trace := t.trace ++ [Event.sem_timedwait s (-1)] })

/-- The call `sem_post(b->s)`. -/
def sem_post (s : Sem) : Exec Unit := fun t =>
  Except.ok ((), { b := sem_post_count s t.b, trace := t.trace ++ [Event.sem_post s] })

/-- The function `sem_protected_buffer_init`: both semaphores are opened with the
value 0, then `sem_empty` is posted `length` times. -/
def sem_protected_buffer_init (length : Int) : Option protected_buffer_t :=
  match circular_buffer_init length with
  | none => none
  | some buf =>
    some ((List.range length.toNat).foldl (fun b _ => sem_post_count Sem.sem_empty b)
      { buffer := buf, sem_full := 0, sem_empty := 0 })

/-- The function `sem_protected_buffer_get`. -/
def sem_protected_buffer_get : Exec ptr := do
  sem_wait Sem.sem_full
  pthread_mutex_lock
  let d ← call_circular_buffer_get
  print_task_activity OpName.get d
  pthread_mutex_unlock
  sem_post Sem.sem_empty
  pure d

/-- The function `sem_protected_buffer_put`. -/
def sem_protected_buffer_put (d : ptr) : Exec Unit := do
  sem_wait Sem.sem_empty
  pthread_mutex_lock
  let _ ← call_circular_buffer_put d
  print_task_activity OpName.put d
  pthread_mutex_unlock
  sem_post Sem.sem_full

/-- The function `sem_protected_buffer_remove`. -/
def sem_protected_buffer_remove : Exec ptr := do
  let d := NULL
  let rc ← sem_trywait Sem.sem_full
  if rc ≠ 0 then do
    print_task_activity OpName.remove d
    pure d
  else do
    pthread_mutex_lock
    let d ← call_circular_buffer_get
    print_task_activity OpName.remove d
    pthread_mutex_unlock
    if rc = 0 then sem_post Sem.sem_empty else pure ()
    pure d

/-- The function `sem_protected_buffer_add`. -/
def sem_protected_buffer_add (d : ptr) : Exec Int := do
  let rc ← sem_trywait Sem.sem_empty
  if rc ≠ 0 then do
    print_task_activity OpName.add NULL
    pure 0
  else do
    pthread_mutex_lock
    let _ ← call_circular_buffer_put d
    print_task_activity OpName.add d
    pthread_mutex_unlock
    if rc = 0 then sem_post Sem.sem_full else pure ()
    pure 1

/-- The function `sem_protected_buffer_poll`. -/
def sem_protected_buffer_poll (abstime : timespec) : Exec ptr := do
  let d := NULL
  let rc ← sem_timedwait Sem.sem_full abstime
  if rc ≠ 0 then do
    print_task_activity OpName.poll d
    pure d
  else do
    pthread_mutex_lock
    let d ← call_circular_buffer_get
    print_task_activity OpName.poll d
    pthread_mutex_unlock
    if rc = 0 then sem_post Sem.sem_empty else pure ()
    pure d

/-- The function `sem_protected_buffer_offer`. -/
def sem_protected_buffer_offer (d : ptr) (abstime : timespec) : Exec Int := do
  let rc ← sem_timedwait Sem.sem_empty abstime
  if rc ≠ 0 then do
    let d := NULL
    print_task_activity OpName.offer d
    pure 0
  else do
    pthread_mutex_lock
    let _ ← call_circular_buffer_put d
    print_task_activity OpName.offer d
    pthread_mutex_unlock
    if rc = 0 then sem_post Sem.sem_full else pure ()
    pure 1

/-! ## Calls and sequential runs -/

/-- What a call returns: nothing (`put`), a pointer or an `int`. -/
inductive Ret where
  | unit
  | pointer (d : ptr)
  | int (i : Int)
deriving DecidableEq, Repr

/-- A call of one of the six operations, with the wake-ups its condition waits
will receive (not used by the semaphore variant). -/
inductive Request where
  | get (env : List Wake)
  | put (d : ptr) (env : List Wake)
  | remove
  | add (d : ptr)
  | poll (abstime : timespec) (w : Wake)
  | offer (d : ptr) (abstime : timespec) (w : Wake)
deriving DecidableEq, Repr

/-- The call of the condition-variable variant a request stands for. -/
def cond_exec : Request → Exec Ret
  | Request.get env => do let d ← cond_protected_buffer_get env; pure (Ret.pointer d)
  | Request.put d env => do cond_protected_buffer_put d env; pure Ret.unit
  | Request.remove => do let d ← cond_protected_buffer_remove; pure (Ret.pointer d)
  | Request.add d => do let r ← cond_protected_buffer_add d; pure (Ret.int r)
  | Request.poll abstime w => do
      let d ← cond_protected_buffer_poll abstime w; pure (Ret.pointer d)
  | Request.offer d abstime w => do
      let r ← cond_protected_buffer_offer d abstime w; pure (Ret.int r)

/-- The call of the semaphore variant a request stands for. -/
def sem_exec : Request → Exec Ret
  | Request.get _ => do let d ← sem_protected_buffer_get; pure (Ret.pointer d)
  | Request.put d _ => do sem_protected_buffer_put d; pure Ret.unit
  | Request.remove => do let d ← sem_protected_buffer_remove; pure (Ret.pointer d)
  | Request.add d => do let r ← sem_protected_buffer_add d; pure (Ret.int r)
  | Request.poll abstime _ => do
      let d ← sem_protected_buffer_poll abstime; pure (Ret.pointer d)
  | Request.offer d abstime _ => do
      let r ← sem_protected_buffer_offer d abstime; pure (Ret.int r)

/-- An operation of a sequential execution, where no other thread runs: a
condition wait finds the storage as the caller left it. `abstime` is the deadline
handed to `offer` and `poll`, `r` the value a timed condition wait returns if the
call reaches it. -/
inductive Op where
  | get
  | put (d : ptr)
  | remove
  | add (d : ptr)
  | poll (abstime : timespec) (r : Int)
  | offer (d : ptr) (abstime : timespec) (r : Int)
deriving DecidableEq, Repr

/-- The request an operation makes on the buffer `b` when no other thread runs. -/
def Op.request (b : protected_buffer_t) : Op → Request
  | Op.get => Request.get []
  | Op.put d => Request.put d []
  | Op.remove => Request.remove
  | Op.add d => Request.add d
  | Op.poll abstime r => Request.poll abstime { r := r, buffer := b.buffer }
  | Op.offer d abstime r => Request.offer d abstime { r := r, buffer := b.buffer }

/-- Run operations one after another with the given variant; the results are
collected in order. A call that does not return ends the run. -/
def run (exec : Request → Exec Ret) (b : protected_buffer_t) :
    List Op → Except Fault (List Ret × protected_buffer_t)
  | [] => Except.ok ([], b)
  | op :: ops =>
    match call (exec (op.request b)) b with
    | Except.error e => Except.error e
    | Except.ok (r, t) =>
      match run exec t.b ops with
      | Except.error e => Except.error e
      | Except.ok (rs, b1) => Except.ok (r :: rs, b1)

/-- Sequential run of the condition-variable variant. -/
def cond_run (b : protected_buffer_t) (ops : List Op) :
    Except Fault (List Ret × protected_buffer_t) := run cond_exec b ops

/-- Sequential run of the semaphore variant. -/
def sem_run (b : protected_buffer_t) (ops : List Op) :
    Except Fault (List Ret × protected_buffer_t) := run sem_exec b ops

/-! ## Interleaved execution of the semaphore variant

Several threads call `sem_protected_buffer_*`; a schedule picks, one primitive at
a time, which thread moves. -/

/-- The operations that insert: `put`, `add`, `offer`. -/
def OpName.inserts : OpName → Bool
  | OpName.put => true
  | OpName.add => true
  | OpName.offer => true
  | _ => false

/-- The semaphore a call decrements on entry: `sem_empty` for the inserting
operations, `sem_full` for the others. -/
def OpName.entry_sem (op : OpName) : Sem :=
  if op.inserts then Sem.sem_empty else Sem.sem_full

/-- The semaphore a call posts before returning. -/
def OpName.exit_sem (op : OpName) : Sem :=
  if op.inserts then Sem.sem_full else Sem.sem_empty

/-- Where a thread stands in a call of `sem_protected_buffer_*` with argument `d`
(and, for `offer` and `poll`, the deadline `abstime`). -/
inductive Pc where
  /-- Outside any call. -/
  | idle
  /-- The call is entered; next comes the decrement of the entry semaphore. -/
  | entered (op : OpName) (d : ptr) (abstime : timespec)
  /-- The decrement succeeded; next comes `pthread_mutex_lock`. -/
  | decremented (op : OpName) (d : ptr)
  /-- The mutex is held; next comes `circular_buffer_put` or `circular_buffer_get`. -/
  | locked (op : OpName) (d : ptr)
  /-- The storage call returned `res`; next comes `pthread_mutex_unlock`. -/
  | stored (op : OpName) (d : ptr) (res : Ret)
  /-- The mutex is released; next comes `sem_post`, then the return. -/
  | unlocked (op : OpName) (d : ptr) (res : Ret)
deriving DecidableEq, Repr

/-- The shared structure, the holder of the mutex and the threads. -/
structure System where
  b : protected_buffer_t
  mut_owner : Option Nat
  threads : List Pc
deriving DecidableEq, Repr

/-- What a scheduled thread does. -/
inductive Action where
  /-- An idle thread enters a call; `abstime` matters to `offer` and `poll` only. -/
  | enter (op : OpName) (d : ptr) (abstime : timespec)
  /-- The thread runs its next primitive. -/
  | next
  /-- The deadline of a `sem_timedwait` on a zero count passes. -/
  | expire
deriving DecidableEq, Repr

/-- One move of thread `tid`; `none` when the move is not possible (the thread
does not exist, is blocked, or the action does not apply). -/
def System.step (s : System) (tid : Nat) (a : Action) : Option System :=
  match s.threads[tid]?, a with
  | some Pc.idle, Action.enter op d abstime =>
    some { s with threads := s.threads.set tid (Pc.entered op d abstime) }
  | some (Pc.entered op d abstime), Action.next =>
    if (op = OpName.offer ∨ op = OpName.poll) ∧ ¬ abstime.valid then
      -- sem_timedwait refuses abstime and returns -1: the call returns 0 / NULL
      some { s with threads := s.threads.set tid Pc.idle }
    else if 0 < sem_count op.entry_sem s.b then
      -- sem_wait / sem_trywait / sem_timedwait return 0
      some { s with b := sem_set op.entry_sem (sem_count op.entry_sem s.b - 1) s.b,
                    threads := s.threads.set tid (Pc.decremented op d) }
    else
      match op with
      -- sem_trywait returns -1: the call returns 0 / NULL
      | OpName.add => some { s with threads := s.threads.set tid Pc.idle }
      | OpName.remove => some { s with threads := s.threads.set tid Pc.idle }
      -- sem_wait and sem_timedwait keep waiting
      | _ => none
  | some (Pc.entered op _ _), Action.expire =>
    if sem_count op.entry_sem s.b = 0 ∧ (op = OpName.offer ∨ op = OpName.poll) then
      -- sem_timedwait returns -1: the call returns 0 / NULL
      some { s with threads := s.threads.set tid Pc.idle }
    else none
  | some (Pc.decremented op d), Action.next =>
    match s.mut_owner with
    | none => some { s with mut_owner := some tid, threads := s.threads.set tid (Pc.locked op d) }
    | some _ => none
  | some (Pc.locked op d), Action.next =>
    if op.inserts then
      some { s with b := { s.b with buffer := (circular_buffer_put s.b.buffer d).1 },
                    threads := s.threads.set tid
                      (Pc.stored op d (Ret.int (circular_buffer_put s.b.buffer d).2)) }
    else
      some { s with b := { s.b with buffer := (circular_buffer_get s.b.buffer).1 },
                    threads := s.threads.set tid
                      (Pc.stored op d (Ret.pointer (circular_buffer_get s.b.buffer).2)) }
  | some (Pc.stored op d res), Action.next =>
    some { s with mut_owner := none, threads := s.threads.set tid (Pc.unlocked op d res) }
  | some (Pc.unlocked op _ _), Action.next =>
    some { s with b := sem_post_count op.exit_sem s.b, threads := s.threads.set tid Pc.idle }
  | _, _ => none

/-- The system after `sem_protected_buffer_init(length)` with `k` idle threads. -/
def System.init (length : Int) (k : Nat) : Option System :=
  match sem_protected_buffer_init length with
  | none => none
  | some b => some { b := b, mut_owner := none, threads := List.replicate k Pc.idle }

/-- Run a schedule; `none` when one of its moves is not possible. -/
def System.run (s : System) : List (Nat × Action) → Option System
  | [] => some s
  | (tid, a) :: rest =>
    match s.step tid a with
    | none => none
    | some s1 => s1.run rest

/-! ## Properties of traces, states and runs -/

deriving instance DecidableEq for Except

/-- One step of the mutex monitor. The state is `none` once the discipline is
broken, otherwise `some held`. Locking a held mutex, unlocking a free one, and
waiting on a condition, reading the storage size or calling the storage without
holding the mutex break the discipline. A condition wait returns with the mutex
held again. -/
def mutex_step (held : Option Bool) (e : Event) : Option Bool :=
  match held with
  | none => none
  | some h =>
    match e with
    | Event.mutex_lock => if h then none else some true
    | Event.mutex_unlock => if h then some false else none
    | Event.cond_wait _ => if h then some true else none
    | Event.cond_timedwait _ _ => if h then some true else none
    | Event.read_size _ => if h then some true else none
    | Event.buffer_get _ _ => if h then some true else none
    | Event.buffer_put _ _ => if h then some true else none
    | _ => some h

/-- Run the mutex monitor over a trace, the mutex being free at the start. -/
def mutex_check (t : List Event) : Option Bool := t.foldl mutex_step (some false)

/-- The event is a storage call that inserted or removed an item. -/
def Event.mutates : Event → Bool
  | Event.buffer_put _ done => decide (done = 1)
  | Event.buffer_get _ removed => removed
  | _ => false

/-- The semaphore counts agree with the storage: `sem_full` counts the stored
items, `sem_empty` the free slots, and the size is within the capacity. -/
def sem_inv (b : protected_buffer_t) : Prop :=
  b.sem_full = b.buffer.size ∧ b.sem_empty = b.buffer.max_size - b.buffer.size ∧
    b.buffer.size ≤ b.buffer.max_size

instance (b : protected_buffer_t) : Decidable (sem_inv b) := by
  unfold sem_inv; infer_instance

/-- A positive count is backed by the storage: while `sem_empty` is positive the
storage has a free slot, while `sem_full` is positive it holds an item. -/
def sem_eligible (b : protected_buffer_t) : Prop :=
  (0 < b.sem_empty → b.buffer.size < b.buffer.max_size) ∧
  (0 < b.sem_full → 0 < b.buffer.size)

instance (b : protected_buffer_t) : Decidable (sem_eligible b) := by
  unfold sem_eligible; infer_instance

/-- The events a waiting loop on `c` may add: reads of the size and waits on `c`. -/
def wait_event (c : Cond) (e : Event) : Prop :=
  (∃ n, e = Event.read_size n) ∨ e = Event.cond_wait c

/-- The timed operation hands in a deadline the timed waits refuse. -/
def Op.rejected : Op → Prop
  | Op.offer _ abstime _ => ¬ abstime.valid
  | Op.poll abstime _ => ¬ abstime.valid
  | _ => False

instance Op.decidable_rejected : (op : Op) → Decidable op.rejected
  | Op.offer _ abstime _ => inferInstanceAs (Decidable (¬ abstime.valid))
  | Op.poll abstime _ => inferInstanceAs (Decidable (¬ abstime.valid))
  | Op.put _ => inferInstanceAs (Decidable False)
  | Op.add _ => inferInstanceAs (Decidable False)
  | Op.get => inferInstanceAs (Decidable False)
  | Op.remove => inferInstanceAs (Decidable False)

/-- The common contract of the six operations on the bare storage, for a caller
that runs alone: `put` and `get` wait for ever when their precondition fails, the
other four attempt the storage call and report its result. With `checks` set,
a timed operation first has its deadline checked and fails at once, the storage
untouched, when the deadline is refused. -/
def contract_step (checks : Bool) (buf : circular_buffer_t) :
    Op → Except Fault (Ret × circular_buffer_t)
  | Op.put d =>
    if buf.size = buf.max_size then Except.error Fault.blocked
    else Except.ok (Ret.unit, (circular_buffer_put buf d).1)
  | Op.get =>
    if buf.size = 0 then Except.error Fault.blocked
    else Except.ok (Ret.pointer (circular_buffer_get buf).2, (circular_buffer_get buf).1)
  | Op.add d => Except.ok (Ret.int (circular_buffer_put buf d).2, (circular_buffer_put buf d).1)
  | Op.remove =>
    Except.ok (Ret.pointer (circular_buffer_get buf).2, (circular_buffer_get buf).1)
  | Op.offer d abstime _ =>
    if checks = true ∧ ¬ abstime.valid then Except.ok (Ret.int 0, buf)
    else Except.ok (Ret.int (circular_buffer_put buf d).2, (circular_buffer_put buf d).1)
  | Op.poll abstime _ =>
    if checks = true ∧ ¬ abstime.valid then Except.ok (Ret.pointer NULL, buf)
    else Except.ok (Ret.pointer (circular_buffer_get buf).2, (circular_buffer_get buf).1)

/-- Run the common contract over a list of operations. -/
def contract_run (checks : Bool) (buf : circular_buffer_t) :
    List Op → Except Fault (List Ret × circular_buffer_t)
  | [] => Except.ok ([], buf)
  | op :: ops =>
    match contract_step checks buf op with
    | Except.error e => Except.error e
    | Except.ok (r, buf1) =>
      match contract_run checks buf1 ops with
      | Except.error e => Except.error e
      | Except.ok (rs, buf2) => Except.ok (r :: rs, buf2)

/-- The timed condition wait of the operation, if reached on the storage `buf`,
returns neither `ETIMEDOUT` nor 0, so that `assert(r == 0)` fails. -/
def Op.aborts (buf : circular_buffer_t) : Op → Prop
  | Op.offer _ _ r => buf.size = buf.max_size ∧ r ≠ ETIMEDOUT ∧ r ≠ 0
  | _ => False

/-- A timed condition wait of the operation ends in a timeout. -/
def Op.times_out : Op → Prop
  | Op.offer _ _ r => r = ETIMEDOUT
  | Op.poll _ r => r = ETIMEDOUT
  | _ => True

/-- Forget the trace of a call. -/
def forget {α : Type} (x : Except Fault (α × Thread)) : Except Fault (α × protected_buffer_t) :=
  match x with
  | Except.error e => Except.error e
  | Except.ok (a, t) => Except.ok (a, t.b)

/-- The buffer of the condition-variable variant around a storage. -/
def cond_around (b : protected_buffer_t) (buf : circular_buffer_t) : protected_buffer_t :=
  { b with buffer := buf }

/-- The buffer of the semaphore variant around a storage, the counts in agreement. -/
def sem_around (buf : circular_buffer_t) : protected_buffer_t :=
  { buffer := buf, sem_full := buf.size, sem_empty := buf.max_size - buf.size }

/-- Apply a function to the final state of a result. -/
def map_state {α σ τ : Type} (f : σ → τ) (x : Except Fault (α × σ)) : Except Fault (α × τ) :=
  match x with
  | Except.error e => Except.error e
  | Except.ok (a, s) => Except.ok (a, f s)

/-- The trace ends with a storage call that inserted or removed an item, the
diagnostic, a `pthread_cond_signal` on `c` and, only then, the one
`pthread_mutex_unlock` of the trace. -/
def signalled_before_unlock (c : Cond) (t : List Event) : Prop :=
  ∃ pre e p, t = pre ++ [e, p, Event.cond_signal c, Event.mutex_unlock] ∧ e.mutates = true ∧
    Event.mutex_unlock ∉ pre

/-- The item the operation hands in, if any, is not `NULL`. -/
def Op.nonnull : Op → Prop
  | Op.put d => d ≠ NULL
  | Op.add d => d ≠ NULL
  | Op.offer d _ _ => d ≠ NULL
  | _ => True

/-- The call is a successful insertion: a `put` that returned, an `add` or an
`offer` that returned 1. -/
def inserted : Op → Ret → Bool
  | Op.put _, _ => true
  | Op.add _, Ret.int i => decide (i = 1)
  | Op.offer _ _ _, Ret.int i => decide (i = 1)
  | _, _ => false

/-- The call is a successful extraction: a `get`, a `remove` or a `poll` that
returned an item, that is a pointer other than `NULL`. -/
def extracted : Op → Ret → Bool
  | Op.get, Ret.pointer d => decide (d ≠ NULL)
  | Op.remove, Ret.pointer d => decide (d ≠ NULL)
  | Op.poll _ _, Ret.pointer d => decide (d ≠ NULL)
  | _, _ => false

/-- The number of calls of a run, paired with their results, that satisfy `f`. -/
def successes (f : Op → Ret → Bool) : List Op → List Ret → Nat
  | op :: ops, r :: rs => (if f op r then 1 else 0) + successes f ops rs
  | _, _ => 0

/-- What a sequential session shows: for a construction that succeeded, either
the fault that ended the run or the results in order and the final storage
contents. -/
def observe (init : Option protected_buffer_t)
    (run : protected_buffer_t → List Op → Except Fault (List Ret × protected_buffer_t))
    (ops : List Op) : Option (Except Fault (List Ret × List ptr)) :=
  match init with
  | none => none
  | some b => some (map_state (fun b1 => b1.buffer.items) (run b ops))

instance Op.decidable_nonnull : (op : Op) → Decidable op.nonnull
  | Op.put d => inferInstanceAs (Decidable (d ≠ NULL))
  | Op.add d => inferInstanceAs (Decidable (d ≠ NULL))
  | Op.offer d _ _ => inferInstanceAs (Decidable (d ≠ NULL))
  | Op.get => inferInstanceAs (Decidable True)
  | Op.remove => inferInstanceAs (Decidable True)
  | Op.poll _ _ => inferInstanceAs (Decidable True)

instance Op.decidable_times_out : (op : Op) → Decidable op.times_out
  | Op.offer _ _ r => inferInstanceAs (Decidable (r = ETIMEDOUT))
  | Op.poll _ r => inferInstanceAs (Decidable (r = ETIMEDOUT))
  | Op.put _ => inferInstanceAs (Decidable True)
  | Op.add _ => inferInstanceAs (Decidable True)
  | Op.get => inferInstanceAs (Decidable True)
  | Op.remove => inferInstanceAs (Decidable True)

/-- The thread accounts for one free slot that `sem_empty` does not count: it
has decremented `sem_empty` and not yet inserted, or it has removed an item and
not yet posted `sem_empty`. -/
def Pc.holds_empty : Pc → Nat
  | Pc.decremented op _ => if op.inserts then 1 else 0
  | Pc.locked op _ => if op.inserts then 1 else 0
  | Pc.stored op _ _ => if op.inserts then 0 else 1
  | Pc.unlocked op _ _ => if op.inserts then 0 else 1
  | _ => 0

/-- The thread accounts for one stored item that `sem_full` does not count: it
has decremented `sem_full` and not yet removed, or it has inserted an item and
not yet posted `sem_full`. -/
def Pc.holds_full : Pc → Nat
  | Pc.decremented op _ => if op.inserts then 0 else 1
  | Pc.locked op _ => if op.inserts then 0 else 1
  | Pc.stored op _ _ => if op.inserts then 1 else 0
  | Pc.unlocked op _ _ => if op.inserts then 1 else 0
  | _ => 0

/-- The storage call of an inserting thread, once made, has returned 1. -/
def Pc.stored_ok : Pc → Prop
  | Pc.stored op _ res => op.inserts = true → res = Ret.int 1
  | Pc.unlocked op _ res => op.inserts = true → res = Ret.int 1
  | _ => True

/-- The sum of a weight over the threads. -/
def total (w : Pc → Nat) : List Pc → Nat
  | [] => 0
  | pc :: pcs => w pc + total w pcs

/-- The accounting invariant of the interleaved semaphore variant: every free
slot is counted by `sem_empty` or held by one thread, every stored item is counted
by `sem_full` or held by one thread, and no insertion has failed. -/
def System.inv (s : System) : Prop :=
  s.b.sem_empty + total Pc.holds_empty s.threads + s.b.buffer.size = s.b.buffer.max_size ∧
  s.b.sem_full + total Pc.holds_full s.threads = s.b.buffer.size ∧
  ∀ pc ∈ s.threads, pc.stored_ok

/-! ## Lemmas on the primitives -/

attribute [simp] Exec.bind Exec.pure emit assert pthread_mutex_lock pthread_mutex_unlock
  pthread_cond_signal pthread_cond_wait pthread_cond_timedwait read_size read_max_size
  call_circular_buffer_size call_circular_buffer_get call_circular_buffer_put
  print_task_activity call sem_wait sem_trywait sem_timedwait sem_post

/-- The loop of `get` only reads the size and waits on `cond_full`, leaves the
semaphores alone and ends on a non-empty storage. -/
theorem cond_get_wait_spec (env : List Wake) (s s1 : Thread)
    (h : cond_get_wait env s = Except.ok ((), s1)) :
    ∃ evs, s1.trace = s.trace ++ evs ∧ (∀ e ∈ evs, wait_event Cond.cond_full e) ∧
      s1.b.buffer.size ≠ 0 ∧ s1.b.sem_full = s.b.sem_full ∧ s1.b.sem_empty = s.b.sem_empty := by
  induction env generalizing s with
  | nil =>
    by_cases h0 : s.b.buffer.size = 0 <;>
      simp [cond_get_wait, bind, pure, circular_buffer_size, h0] at h
    subst h
    exact ⟨[Event.read_size s.b.buffer.size], rfl, by simp [wait_event], by simpa using h0, rfl, rfl⟩
  | cons w ws ih =>
    by_cases h0 : s.b.buffer.size = 0
    · simp [cond_get_wait, bind, pure, circular_buffer_size, h0] at h
      obtain ⟨evs, h1, h2, h3, h4, h5⟩ := ih _ h
      refine ⟨[Event.read_size 0, Event.cond_wait Cond.cond_full] ++ evs, ?_, ?_, h3, ?_, ?_⟩
      · simp [h1]
      · intro e he
        simp at he
        rcases he with he | he | he
        · exact Or.inl ⟨0, he⟩
        · exact Or.inr he
        · exact h2 e he
      · simpa using h4
      · simpa using h5
    · simp [cond_get_wait, bind, pure, circular_buffer_size, h0] at h
      subst h
      exact ⟨[Event.read_size s.b.buffer.size], rfl, by simp [wait_event], by simpa using h0, rfl, rfl⟩

/-- The loop of `put` only reads the size and waits on `cond_empty`, leaves the
semaphores alone and ends on a storage with room. -/
theorem cond_put_wait_spec (env : List Wake) (s s1 : Thread)
    (h : cond_put_wait env s = Except.ok ((), s1)) :
    ∃ evs, s1.trace = s.trace ++ evs ∧ (∀ e ∈ evs, wait_event Cond.cond_empty e) ∧
      s1.b.buffer.size ≠ s1.b.buffer.max_size ∧ s1.b.sem_full = s.b.sem_full ∧
      s1.b.sem_empty = s.b.sem_empty := by
  induction env generalizing s with
  | nil =>
    by_cases h0 : s.b.buffer.size = s.b.buffer.max_size <;>
      simp [cond_put_wait, bind, pure, h0] at h
    subst h
    exact ⟨[Event.read_size s.b.buffer.size], rfl, by simp [wait_event], by simpa using h0, rfl, rfl⟩
  | cons w ws ih =>
    by_cases h0 : s.b.buffer.size = s.b.buffer.max_size
    · simp [cond_put_wait, bind, pure, h0] at h
      obtain ⟨evs, h1, h2, h3, h4, h5⟩ := ih _ h
      refine ⟨[Event.read_size s.b.buffer.max_size, Event.cond_wait Cond.cond_empty] ++ evs,
        ?_, ?_, h3, ?_, ?_⟩
      · simp [h1]
      · intro e he
        simp at he
        rcases he with he | he | he
        · exact Or.inl ⟨_, he⟩
        · exact Or.inr he
        · exact h2 e he
      · simpa using h4
      · simpa using h5
    · simp [cond_put_wait, bind, pure, h0] at h
      subst h
      exact ⟨[Event.read_size s.b.buffer.size], rfl, by simp [wait_event], by simpa using h0, rfl, rfl⟩

/-- The mutex monitor stays in the held state across the events of a waiting loop. -/
theorem mutex_step_wait_events (c : Cond) (evs : List Event)
    (h : ∀ e ∈ evs, wait_event c e) : evs.foldl mutex_step (some true) = some true := by
  induction evs with
  | nil => rfl
  | cons e es ih =>
    have he := h e (by simp)
    have hes : ∀ x ∈ es, wait_event c x := fun x hx => h x (by simp [hx])
    rcases he with ⟨n, rfl⟩ | rfl <;> simpa [mutex_step] using ih hes

/-- What a returning `cond_protected_buffer_get` did: it locked, waited until it
found a non-empty storage `buf`, removed its oldest item, signalled `cond_empty`
and unlocked. -/
theorem cond_get_returns (env : List Wake) (b : protected_buffer_t) (r : Ret) (t : Thread)
    (h : call (cond_exec (Request.get env)) b = Except.ok (r, t)) :
    ∃ (evs : List Event) (buf : circular_buffer_t),
      (∀ e ∈ evs, wait_event Cond.cond_full e) ∧ buf.size ≠ 0 ∧
      r = Ret.pointer (circular_buffer_get buf).2 ∧
      t.b = { b with buffer := (circular_buffer_get buf).1 } ∧
      t.trace = Event.mutex_lock :: evs ++
        [Event.buffer_get (circular_buffer_get buf).2 true,
         Event.print_task_activity OpName.get (circular_buffer_get buf).2,
         Event.cond_signal Cond.cond_empty, Event.mutex_unlock] := by
  simp only [call, cond_exec, cond_protected_buffer_get, bind, Exec.bind, pthread_mutex_lock, emit,
    List.nil_append] at h
  cases hw : cond_get_wait env { b := b, trace := [Event.mutex_lock] } with
  | error e => simp [hw] at h
  | ok v =>
    obtain ⟨u, s1⟩ := v
    obtain ⟨evs, h1, h2, h3, h4, h5⟩ := cond_get_wait_spec env _ s1 hw
    simp [hw, pure] at h
    obtain ⟨rfl, rfl⟩ := h
    refine ⟨evs, s1.b.buffer, h2, h3, rfl, ?_, ?_⟩
    · simp at h4 h5
      simp [h4, h5]
    · simp [h1, Nat.pos_of_ne_zero h3]

/-- What a returning `cond_protected_buffer_put` did: it locked, waited until it
found a storage `buf` with room, inserted, signalled `cond_full` and unlocked. -/
theorem cond_put_returns (d : ptr) (env : List Wake) (b : protected_buffer_t) (r : Ret)
    (t : Thread) (h : call (cond_exec (Request.put d env)) b = Except.ok (r, t)) :
    ∃ (evs : List Event) (buf : circular_buffer_t),
      (∀ e ∈ evs, wait_event Cond.cond_empty e) ∧ buf.size ≠ buf.max_size ∧
      r = Ret.unit ∧
      t.b = { b with buffer := { buf with items := buf.items ++ [d] } } ∧
      t.trace = Event.mutex_lock :: evs ++
        [Event.buffer_put d 1, Event.print_task_activity OpName.put d,
         Event.cond_signal Cond.cond_full, Event.mutex_unlock] := by
  simp only [call, cond_exec, cond_protected_buffer_put, bind, Exec.bind, pthread_mutex_lock, emit,
    List.nil_append] at h
  cases hw : cond_put_wait env { b := b, trace := [Event.mutex_lock] } with
  | error e => simp [hw] at h
  | ok v =>
    obtain ⟨u, s1⟩ := v
    obtain ⟨evs, h1, h2, h3, h4, h5⟩ := cond_put_wait_spec env _ s1 hw
    simp [hw, pure] at h
    obtain ⟨rfl, rfl⟩ := h
    refine ⟨evs, s1.b.buffer, h2, h3, rfl, ?_, ?_⟩
    · simp at h4 h5
      simp [h4, h5, circular_buffer_put, h3]
    · simp [h1, circular_buffer_put, h3]

/-- Every returning call of the condition-variable variant keeps the mutex discipline. -/
theorem cond_mutex_discipline (req : Request) (b : protected_buffer_t) (r : Ret) (t : Thread)
    (h : call (cond_exec req) b = Except.ok (r, t)) : mutex_check t.trace = some false := by
  cases req with
  | get env =>
    obtain ⟨evs, buf, h1, -, -, -, h5⟩ := cond_get_returns env b r t h
    simp [mutex_check, h5, mutex_step, List.foldl_append, mutex_step_wait_events _ evs h1]
  | put d env =>
    obtain ⟨evs, buf, h1, -, -, -, h5⟩ := cond_put_returns d env b r t h
    simp [mutex_check, h5, mutex_step, List.foldl_append, mutex_step_wait_events _ evs h1]
  | remove =>
    simp [cond_exec, cond_protected_buffer_remove, bind, pure] at h
    obtain ⟨-, rfl⟩ := h
    simp [mutex_check, mutex_step]
  | add d =>
    simp [cond_exec, cond_protected_buffer_add, bind, pure] at h
    obtain ⟨-, rfl⟩ := h
    simp [mutex_check, mutex_step]
  | poll abstime w =>
    by_cases h1 : b.buffer.size = 0 <;> by_cases h2 : w.r = ETIMEDOUT <;>
      simp [cond_exec, cond_protected_buffer_poll, bind, pure, h1, h2] at h <;>
      obtain ⟨-, rfl⟩ := h <;> simp [mutex_check, mutex_step]
  | offer d abstime w =>
    by_cases h1 : b.buffer.size = b.buffer.max_size <;> by_cases h2 : w.r = ETIMEDOUT <;>
      by_cases h3 : w.r = 0 <;>
      simp [cond_exec, cond_protected_buffer_offer, bind, pure, h1, h2, h3] at h <;>
      obtain ⟨-, rfl⟩ := h <;> simp [mutex_check, mutex_step]

/-- Every returning call of the semaphore variant keeps the mutex discipline. -/
theorem sem_mutex_discipline (req : Request) (b : protected_buffer_t) (r : Ret) (t : Thread)
    (h : call (sem_exec req) b = Except.ok (r, t)) : mutex_check t.trace = some false := by
  cases req with
  | get env =>
    by_cases h1 : 0 < b.sem_full <;>
      simp [sem_exec, sem_protected_buffer_get, bind, pure, sem_count, sem_set, h1] at h
    obtain ⟨-, rfl⟩ := h
    simp [mutex_check, mutex_step]
  | put d env =>
    by_cases h1 : 0 < b.sem_empty <;>
      simp [sem_exec, sem_protected_buffer_put, bind, pure, sem_count, sem_set, h1] at h
    obtain ⟨-, rfl⟩ := h
    simp [mutex_check, mutex_step]
  | remove =>
    by_cases h1 : 0 < b.sem_full <;>
      simp [sem_exec, sem_protected_buffer_remove, bind, pure, sem_count, sem_set, h1] at h <;>
      obtain ⟨-, rfl⟩ := h <;> simp [mutex_check, mutex_step]
  | add d =>
    by_cases h1 : 0 < b.sem_empty <;>
      simp [sem_exec, sem_protected_buffer_add, bind, pure, sem_count, sem_set, h1] at h <;>
      obtain ⟨-, rfl⟩ := h <;> simp [mutex_check, mutex_step]
  | poll abstime w =>
    by_cases hv : abstime.valid <;> by_cases h1 : 0 < b.sem_full <;>
      simp [sem_exec, sem_protected_buffer_poll, bind, pure, sem_count, sem_set, h1, hv] at h <;>
      obtain ⟨-, rfl⟩ := h <;> simp [mutex_check, mutex_step]
  | offer d abstime w =>
    by_cases hv : abstime.valid <;> by_cases h1 : 0 < b.sem_empty <;>
      simp [sem_exec, sem_protected_buffer_offer, bind, pure, sem_count, sem_set, h1, hv] at h <;>
      obtain ⟨-, rfl⟩ := h <;> simp [mutex_check, mutex_step]

/-! ## The two variants against the common contract -/

/-- A full storage rejects the insert: it returns 0 and is unchanged. -/
theorem circular_buffer_put_full (buf : circular_buffer_t) (d : ptr)
    (h : buf.size = buf.max_size) : circular_buffer_put buf d = (buf, 0) := by
  simp [circular_buffer_put, h]

/-- A storage with room appends the item and returns 1. -/
theorem circular_buffer_put_room (buf : circular_buffer_t) (d : ptr)
    (h : buf.size ≠ buf.max_size) :
    circular_buffer_put buf d = ({ buf with items := buf.items ++ [d] }, 1) := by
  simp [circular_buffer_put, h]

/-- An empty storage returns `NULL` and is unchanged. -/
theorem circular_buffer_get_empty (buf : circular_buffer_t) (h : buf.size = 0) :
    circular_buffer_get buf = (buf, NULL) := by
  have : buf.items = [] := List.eq_nil_of_length_eq_zero h
  simp [circular_buffer_get, this]

/-- The value 0 is not `ETIMEDOUT`. -/
theorem zero_ne_ETIMEDOUT : ¬ (0 : Int) = ETIMEDOUT := by decide

/-- A call of the condition-variable variant by a caller that runs alone does what
the contract says, unless its `assert` fails. -/
theorem cond_step_contract (b : protected_buffer_t) (op : Op) (h : ¬ op.aborts b.buffer) :
    forget (call (cond_exec (op.request b)) b) =
      map_state (cond_around b) (contract_step false b.buffer op) := by
  cases op with
  | get =>
    by_cases h0 : b.buffer.size = 0
    · simp [Op.request, cond_exec, cond_protected_buffer_get, bind, pure, cond_get_wait,
        circular_buffer_size, h0, forget, contract_step, map_state]
    · simp [Op.request, cond_exec, cond_protected_buffer_get, bind, pure, cond_get_wait,
        circular_buffer_size, h0, forget, contract_step, map_state, cond_around]
  | put d =>
    by_cases h0 : b.buffer.size = b.buffer.max_size
    · simp [Op.request, cond_exec, cond_protected_buffer_put, bind, pure, cond_put_wait,
        h0, forget, contract_step, map_state]
    · simp [Op.request, cond_exec, cond_protected_buffer_put, bind, pure, cond_put_wait,
        h0, forget, contract_step, map_state, cond_around]
  | remove =>
    simp [Op.request, cond_exec, cond_protected_buffer_remove, bind, pure, forget, contract_step,
      map_state, cond_around]
  | add d =>
    simp [Op.request, cond_exec, cond_protected_buffer_add, bind, pure, forget, contract_step,
      map_state, cond_around]
  | poll abstime r =>
    by_cases h0 : b.buffer.size = 0 <;> by_cases h1 : r = ETIMEDOUT <;>
      simp [Op.request, cond_exec, cond_protected_buffer_poll, bind, pure, forget, contract_step,
        map_state, cond_around, h0, h1, circular_buffer_get_empty]
  | offer d abstime r =>
    by_cases h0 : b.buffer.size = b.buffer.max_size <;> by_cases h1 : r = ETIMEDOUT <;>
      by_cases h2 : r = 0 <;>
      simp [Op.aborts, h0, h1, h2] at h <;>
      simp [Op.request, cond_exec, cond_protected_buffer_offer, bind, pure, forget, contract_step,
        map_state, cond_around, h0, h1, h2, circular_buffer_put_full, zero_ne_ETIMEDOUT]

/-- The call `circular_buffer_get` keeps the capacity. -/
theorem circular_buffer_get_max_size (buf : circular_buffer_t) :
    (circular_buffer_get buf).1.max_size = buf.max_size := by
  unfold circular_buffer_get; split <;> rfl

/-- The call `circular_buffer_put` keeps the capacity. -/
theorem circular_buffer_put_max_size (buf : circular_buffer_t) (d : ptr) :
    (circular_buffer_put buf d).1.max_size = buf.max_size := by
  unfold circular_buffer_put; split <;> rfl

/-- The call `circular_buffer_get` takes one item off a non-empty storage. -/
theorem circular_buffer_get_size (buf : circular_buffer_t) :
    (circular_buffer_get buf).1.size = buf.size - 1 := by
  unfold circular_buffer_get circular_buffer_t.size; split <;> simp_all

/-- The call `circular_buffer_put` adds one item to a storage with room. -/
theorem circular_buffer_put_size (buf : circular_buffer_t) (d : ptr)
    (h : buf.size ≠ buf.max_size) : (circular_buffer_put buf d).1.size = buf.size + 1 := by
  rw [circular_buffer_put_room buf d h]; simp [circular_buffer_t.size]

/-- A call of the semaphore variant by a caller that runs alone, the counts agreeing
with the storage, does what the contract says and leaves the counts in agreement. -/
theorem sem_step_contract (b : protected_buffer_t) (op : Op) (h : sem_inv b) :
    forget (call (sem_exec (op.request b)) b) =
      map_state sem_around (contract_step true b.buffer op) := by
  obtain ⟨bf, fl, em⟩ := b
  obtain ⟨h1, h2, h3⟩ := h
  simp only at h1 h2 h3
  subst h1 h2
  have hg := circular_buffer_get_size bf
  have hgm := circular_buffer_get_max_size bf
  cases op with
  | get =>
    by_cases h0 : bf.size = 0
    · simp [Op.request, sem_exec, sem_protected_buffer_get, bind, pure, sem_count, sem_set,
        h0, forget, contract_step, map_state]
    · have hp : 0 < bf.size := Nat.pos_of_ne_zero h0
      simp [Op.request, sem_exec, sem_protected_buffer_get, bind, pure, sem_count, sem_set,
        h0, hp, forget, contract_step, map_state, sem_around, sem_post_count, hg, hgm]
      omega
  | remove =>
    by_cases h0 : bf.size = 0
    · simp [Op.request, sem_exec, sem_protected_buffer_remove, bind, pure, sem_count, sem_set,
        h0, forget, contract_step, map_state, sem_around, circular_buffer_get_empty]
    · have hp : 0 < bf.size := Nat.pos_of_ne_zero h0
      simp [Op.request, sem_exec, sem_protected_buffer_remove, bind, pure, sem_count, sem_set,
        h0, hp, forget, contract_step, map_state, sem_around, sem_post_count, hg, hgm]
      omega
  | poll abstime r =>
    by_cases hv : abstime.valid
    · by_cases h0 : bf.size = 0
      · simp [Op.request, sem_exec, sem_protected_buffer_poll, bind, pure, sem_count, sem_set,
          h0, hv, forget, contract_step, map_state, sem_around, circular_buffer_get_empty]
      · have hp : 0 < bf.size := Nat.pos_of_ne_zero h0
        simp [Op.request, sem_exec, sem_protected_buffer_poll, bind, pure, sem_count, sem_set,
          h0, hp, hv, forget, contract_step, map_state, sem_around, sem_post_count, hg, hgm]
        omega
    · simp [Op.request, sem_exec, sem_protected_buffer_poll, bind, pure, hv, forget,
        contract_step, map_state, sem_around]
  | put d =>
    have hpm := circular_buffer_put_max_size bf d
    by_cases h0 : bf.size = bf.max_size
    · simp [Op.request, sem_exec, sem_protected_buffer_put, bind, pure, sem_count, sem_set,
        h0, forget, contract_step, map_state]
    · have hp : 0 < bf.max_size - bf.size := by omega
      have hps := circular_buffer_put_size bf d h0
      simp [Op.request, sem_exec, sem_protected_buffer_put, bind, pure, sem_count, sem_set,
        h0, hp, forget, contract_step, map_state, sem_around, sem_post_count, hps, hpm]
      omega
  | add d =>
    have hpm := circular_buffer_put_max_size bf d
    by_cases h0 : bf.size = bf.max_size
    · simp [Op.request, sem_exec, sem_protected_buffer_add, bind, pure, sem_count, sem_set,
        h0, forget, contract_step, map_state, sem_around, circular_buffer_put_full]
    · have hp : 0 < bf.max_size - bf.size := by omega
      have hps := circular_buffer_put_size bf d h0
      have hr := circular_buffer_put_room bf d h0
      have hps1 : ({ max_size := bf.max_size, items := bf.items ++ [d] } : circular_buffer_t).size
          = bf.size + 1 := by simp [circular_buffer_t.size]
      simp [Op.request, sem_exec, sem_protected_buffer_add, bind, pure, sem_count, sem_set,
        h0, hp, forget, contract_step, map_state, sem_around, sem_post_count, hr, hps1]
      omega
  | offer d abstime r =>
    have hpm := circular_buffer_put_max_size bf d
    by_cases hv : abstime.valid
    · by_cases h0 : bf.size = bf.max_size
      · simp [Op.request, sem_exec, sem_protected_buffer_offer, bind, pure, sem_count, sem_set,
          h0, hv, forget, contract_step, map_state, sem_around, circular_buffer_put_full]
      · have hp : 0 < bf.max_size - bf.size := by omega
        have hps := circular_buffer_put_size bf d h0
        have hr := circular_buffer_put_room bf d h0
        have hps1 :
            ({ max_size := bf.max_size, items := bf.items ++ [d] } : circular_buffer_t).size
              = bf.size + 1 := by simp [circular_buffer_t.size]
        simp [Op.request, sem_exec, sem_protected_buffer_offer, bind, pure, sem_count, sem_set,
          h0, hp, hv, forget, contract_step, map_state, sem_around, sem_post_count, hr, hps1]
        omega
    · simp [Op.request, sem_exec, sem_protected_buffer_offer, bind, pure, hv, forget,
        contract_step, map_state, sem_around, NULL]

/-- An `offer` whose timed wait returns neither 0 nor `ETIMEDOUT` aborts on its `assert`. -/
theorem cond_step_abort (b : protected_buffer_t) (op : Op) (h : op.aborts b.buffer) :
    call (cond_exec (op.request b)) b = Except.error Fault.assertion_failed := by
  cases op with
  | offer d abstime r =>
    obtain ⟨h0, h1, h2⟩ := h
    simp [Op.request, cond_exec, cond_protected_buffer_offer, bind, pure, h0, h1, h2]
  | get => exact absurd h id
  | put d => exact absurd h id
  | remove => exact absurd h id
  | add d => exact absurd h id
  | poll abstime r => exact absurd h id

/-- A timed wait that times out does not fail the `assert`. -/
theorem times_out_not_aborts (buf : circular_buffer_t) (op : Op) (h : op.times_out) :
    ¬ op.aborts buf := by
  cases op <;> simp_all [Op.times_out, Op.aborts]

/-- One step of a run, the trace forgotten. -/
theorem run_cons (exec : Request → Exec Ret) (b : protected_buffer_t) (op : Op) (ops : List Op) :
    run exec b (op :: ops) =
      match forget (call (exec (op.request b)) b) with
      | Except.error e => Except.error e
      | Except.ok (r, b1) =>
        match run exec b1 ops with
        | Except.error e => Except.error e
        | Except.ok (rs, b2) => Except.ok (r :: rs, b2) := by
  simp only [run, forget]
  cases call (exec (op.request b)) b with
  | error e => rfl
  | ok v => rfl

/-- The contract keeps the capacity and keeps the size within it. -/
theorem contract_step_bounds (ck : Bool) (buf buf1 : circular_buffer_t) (op : Op) (r : Ret)
    (h : contract_step ck buf op = Except.ok (r, buf1)) (hs : buf.size ≤ buf.max_size) :
    buf1.max_size = buf.max_size ∧ buf1.size ≤ buf1.max_size := by
  have hg := circular_buffer_get_size buf
  have hgm := circular_buffer_get_max_size buf
  cases op with
  | get =>
    by_cases h0 : buf.size = 0 <;> simp [contract_step, h0] at h
    obtain ⟨-, rfl⟩ := h
    omega
  | remove =>
    simp [contract_step] at h
    obtain ⟨-, rfl⟩ := h
    omega
  | poll abstime r =>
    by_cases hc : ck = true ∧ ¬ abstime.valid <;> simp only [contract_step, hc] at h <;>
      simp at h <;> obtain ⟨-, rfl⟩ := h
    · exact ⟨rfl, hs⟩
    · omega
  | put d =>
    by_cases h0 : buf.size = buf.max_size <;> simp [contract_step, h0] at h
    obtain ⟨-, rfl⟩ := h
    have := circular_buffer_put_size buf d h0
    have := circular_buffer_put_max_size buf d
    omega
  | add d =>
    simp [contract_step] at h
    obtain ⟨-, rfl⟩ := h
    have := circular_buffer_put_max_size buf d
    by_cases h0 : buf.size = buf.max_size
    · rw [circular_buffer_put_full buf d h0]; exact ⟨rfl, hs⟩
    · have := circular_buffer_put_size buf d h0
      omega
  | offer d abstime r =>
    by_cases hc : ck = true ∧ ¬ abstime.valid <;> simp only [contract_step, hc] at h <;>
      simp at h <;> obtain ⟨-, rfl⟩ := h
    · exact ⟨rfl, hs⟩
    · have := circular_buffer_put_max_size buf d
      by_cases h0 : buf.size = buf.max_size
      · rw [circular_buffer_put_full buf d h0]; exact ⟨rfl, hs⟩
      · have := circular_buffer_put_size buf d h0
        omega

/-- A contract run keeps the capacity and keeps the size within it. -/
theorem contract_run_bounds (ck : Bool) (ops : List Op) (buf buf1 : circular_buffer_t)
    (rs : List Ret) (h : contract_run ck buf ops = Except.ok (rs, buf1))
    (hs : buf.size ≤ buf.max_size) :
    buf1.max_size = buf.max_size ∧ buf1.size ≤ buf1.max_size := by
  induction ops generalizing buf rs with
  | nil =>
    simp [contract_run] at h
    obtain ⟨-, rfl⟩ := h
    exact ⟨rfl, hs⟩
  | cons op ops ih =>
    simp only [contract_run] at h
    cases h1 : contract_step ck buf op with
    | error e => simp [h1] at h
    | ok v =>
      obtain ⟨r, b1⟩ := v
      obtain ⟨hm, hb⟩ := contract_step_bounds ck buf b1 op r h1 hs
      simp only [h1] at h
      cases h2 : contract_run ck b1 ops with
      | error e => simp [h2] at h
      | ok v2 =>
        obtain ⟨rs2, b2⟩ := v2
        simp [h2] at h
        obtain ⟨-, rfl⟩ := h
        obtain ⟨hm2, hb2⟩ := ih b1 rs2 h2 hb
        exact ⟨hm2.trans hm, hb2⟩

/-- The counts built around a storage agree with it. -/
theorem sem_inv_sem_around (buf : circular_buffer_t) (h : buf.size ≤ buf.max_size) :
    sem_inv (sem_around buf) := ⟨rfl, rfl, h⟩

/-- A buffer whose counts agree with its storage is the one built around its storage. -/
theorem sem_around_of_inv (b : protected_buffer_t) (h : sem_inv b) : sem_around b.buffer = b := by
  obtain ⟨bf, fl, em⟩ := b
  obtain ⟨h1, h2, -⟩ := h
  simp only at h1 h2
  subst h1 h2
  rfl

/-- A sequential run of the semaphore variant is the contract run on the storage,
the counts following the size. -/
theorem sem_run_contract (ops : List Op) (b : protected_buffer_t) (h : sem_inv b) :
    sem_run b ops = map_state sem_around (contract_run true b.buffer ops) := by
  induction ops generalizing b with
  | nil => simp [sem_run, run, contract_run, map_state, sem_around_of_inv b h]
  | cons op ops ih =>
    unfold sem_run at ih ⊢
    rw [run_cons, sem_step_contract b op h]
    simp only [contract_run]
    cases h1 : contract_step true b.buffer op with
    | error e => simp [map_state]
    | ok v =>
      obtain ⟨r, b1⟩ := v
      have hb := (contract_step_bounds true b.buffer b1 op r h1 h.2.2).2
      simp only [map_state]
      rw [ih (sem_around b1) (sem_inv_sem_around b1 hb)]
      have hbuf : (sem_around b1).buffer = b1 := rfl
      rw [hbuf]
      cases h2 : contract_run true b1 ops with
      | error e => simp [map_state]
      | ok v2 => simp [map_state]

/-- A sequential run of the condition-variable variant whose timed waits end in
timeouts is the contract run on the storage. -/
theorem cond_run_contract (ops : List Op) (b : protected_buffer_t)
    (h : ∀ op ∈ ops, op.times_out) :
    cond_run b ops = map_state (cond_around b) (contract_run false b.buffer ops) := by
  induction ops generalizing b with
  | nil => simp [cond_run, run, contract_run, map_state, cond_around]
  | cons op ops ih =>
    unfold cond_run at ih ⊢
    have hop := times_out_not_aborts b.buffer op (h op (by simp))
    have hops : ∀ x ∈ ops, x.times_out := fun x hx => h x (by simp [hx])
    rw [run_cons, cond_step_contract b op hop]
    simp only [contract_run]
    cases h1 : contract_step false b.buffer op with
    | error e => simp [map_state]
    | ok v =>
      obtain ⟨r, b1⟩ := v
      simp only [map_state]
      rw [ih (cond_around b b1) hops]
      have hbuf : (cond_around b b1).buffer = b1 := rfl
      rw [hbuf]
      cases h2 : contract_run false b1 ops with
      | error e => simp [map_state]
      | ok v2 => simp [map_state, cond_around]

/-- A sequential run of the condition-variable variant that completes, whatever
its timed waits return, did what the contract run does. -/
theorem cond_run_contract_of_ok (ops : List Op) (b b1 : protected_buffer_t) (rs : List Ret)
    (h : cond_run b ops = Except.ok (rs, b1)) :
    contract_run false b.buffer ops = Except.ok (rs, b1.buffer) := by
  induction ops generalizing b rs with
  | nil =>
    simp [cond_run, run] at h
    obtain ⟨rfl, rfl⟩ := h
    rfl
  | cons op ops ih =>
    unfold cond_run at ih h
    rw [run_cons] at h
    by_cases ha : op.aborts b.buffer
    · rw [cond_step_abort b op ha] at h
      simp [forget] at h
    · rw [cond_step_contract b op ha] at h
      simp only [contract_run]
      cases h1 : contract_step false b.buffer op with
      | error e => simp [h1, map_state] at h
      | ok v =>
        obtain ⟨r, buf1⟩ := v
        simp only [h1, map_state] at h
        cases h2 : run cond_exec (cond_around b buf1) ops with
        | error e => simp [h2] at h
        | ok v2 =>
          obtain ⟨rs2, b2⟩ := v2
          simp [h2] at h
          obtain ⟨rfl, rfl⟩ := h
          have := ih (cond_around b buf1) rs2 h2
          simp only [cond_around] at this
          simp [this]

/-! ## The claims -/

/-- Posting `sem_empty` `k` times adds `k` to its count and changes nothing else. -/
theorem sem_init_posts (k : Nat) (b : protected_buffer_t) :
    (List.range k).foldl (fun b _ => sem_post_count Sem.sem_empty b) b =
      { b with sem_empty := b.sem_empty + k } := by
  induction k with
  | zero => simp
  | succ k ih =>
    rw [List.range_succ, List.foldl_append, ih]
    simp [sem_post_count, sem_set, sem_count, Nat.add_assoc]

/-- The structure `sem_protected_buffer_init` builds for a non-negative length. -/
theorem sem_protected_buffer_init_eq (n : Int) (hn : 0 ≤ n) :
    sem_protected_buffer_init n =
      some { buffer := { max_size := n.toNat, items := [] }, sem_full := 0,
             sem_empty := n.toNat } := by
  have h : ¬ n < 0 := by omega
  simp [sem_protected_buffer_init, circular_buffer_init, h, sem_init_posts]

/-- Claim C1. `sem_protected_buffer_init(n)` with `n >= 0` returns a buffer whose
`sem_empty` counts `n`, whose `sem_full` counts 0 and whose storage is empty with
capacity `n`; and after every sequence of `sem_protected_buffer_*` operations run
to completion one after another from it, `sem_full` counts the stored items,
`sem_empty` counts capacity minus size, and the size is within the (unchanged)
capacity. -/
theorem sem_availability_invariant (n : Int) (hn : 0 ≤ n) :
    ∃ b0, sem_protected_buffer_init n = some b0 ∧
      (b0.sem_empty : Int) = n ∧ b0.sem_full = 0 ∧ b0.buffer.items = [] ∧
      (b0.buffer.max_size : Int) = n ∧
      ∀ (ops : List Op) (rs : List Ret) (b : protected_buffer_t),
        sem_run b0 ops = Except.ok (rs, b) →
          b.sem_full = b.buffer.size ∧ b.sem_empty = b.buffer.max_size - b.buffer.size ∧
          b.buffer.size ≤ b.buffer.max_size ∧ b.buffer.max_size = b0.buffer.max_size := by
  refine ⟨_, sem_protected_buffer_init_eq n hn, by simpa using hn, rfl, rfl, by simpa using hn, ?_⟩
  intro ops rs b h
  have hinv : sem_inv ⟨⟨n.toNat, []⟩, 0, n.toNat⟩ := ⟨rfl, rfl, Nat.zero_le _⟩
  rw [sem_run_contract ops _ hinv] at h
  cases h1 : contract_run true ⟨n.toNat, []⟩ ops with
  | error e => simp [h1, map_state] at h
  | ok v =>
    obtain ⟨rs1, buf⟩ := v
    simp [h1, map_state] at h
    obtain ⟨-, rfl⟩ := h
    obtain ⟨hm, hs⟩ := contract_run_bounds true ops _ buf rs1 h1 (Nat.zero_le _)
    exact ⟨rfl, rfl, hs, hm⟩

/-- Witness of C1: capacity 2, then `put`, `add`, `add` (rejected) and `remove`. -/
theorem sem_availability_invariant_witness :
    ∃ b0, sem_protected_buffer_init 2 = some b0 ∧
      sem_run b0 [Op.put 5, Op.add 6, Op.add 7, Op.remove] =
        Except.ok ([Ret.unit, Ret.int 1, Ret.int 0, Ret.pointer 5],
          { buffer := { max_size := 2, items := [6] }, sem_full := 1, sem_empty := 1 }) ∧
      (1 : Nat) = [6].length ∧ (1 : Nat) = 2 - [6].length := by
  obtain ⟨b0, h0, -, -, -, -, hall⟩ := sem_availability_invariant 2 (by decide)
  have hb : sem_protected_buffer_init 2 =
      some { buffer := { max_size := 2, items := [] }, sem_full := 0, sem_empty := 2 } := by
    decide
  have hb0 : b0 = { buffer := { max_size := 2, items := [] }, sem_full := 0, sem_empty := 2 } := by
    rw [hb] at h0
    exact (Option.some.inj h0).symm
  subst hb0
  have hrun : sem_run { buffer := { max_size := 2, items := [] }, sem_full := 0, sem_empty := 2 }
      [Op.put 5, Op.add 6, Op.add 7, Op.remove] =
        Except.ok ([Ret.unit, Ret.int 1, Ret.int 0, Ret.pointer 5],
          { buffer := { max_size := 2, items := [6] }, sem_full := 1, sem_empty := 1 }) := by
    decide
  have hinv := hall _ _ _ hrun
  exact ⟨_, h0, hrun, hinv.1, hinv.2.1⟩

/-- Claim C3. On a full storage `cond_protected_buffer_add` and
`sem_protected_buffer_add` return 0 and leave the buffer as it was; on an empty
storage `cond_protected_buffer_remove` and `sem_protected_buffer_remove` return
`NULL` and leave the buffer as it was. For the semaphore variant the counts are
taken to agree with the storage size. -/
theorem nonblocking_failure_is_noop (b : protected_buffer_t) (d : ptr) :
    (b.buffer.size = b.buffer.max_size →
      ∃ t, call (cond_protected_buffer_add d) b = Except.ok (0, t) ∧ t.b = b) ∧
    (b.buffer.size = 0 →
      ∃ t, call cond_protected_buffer_remove b = Except.ok (NULL, t) ∧ t.b = b) ∧
    (sem_inv b → b.buffer.size = b.buffer.max_size →
      ∃ t, call (sem_protected_buffer_add d) b = Except.ok (0, t) ∧ t.b = b) ∧
    (sem_inv b → b.buffer.size = 0 →
      ∃ t, call sem_protected_buffer_remove b = Except.ok (NULL, t) ∧ t.b = b) := by
  refine ⟨?_, ?_, ?_, ?_⟩
  · intro h
    simp [cond_protected_buffer_add, bind, pure, circular_buffer_put_full _ d h]
  · intro h
    simp [cond_protected_buffer_remove, bind, pure, circular_buffer_get_empty _ h]
  · intro hi h
    have h0 : b.sem_empty = 0 := by rw [hi.2.1, h]; simp
    simp [sem_protected_buffer_add, bind, pure, sem_count, h0]
  · intro hi h
    have h0 : b.sem_full = 0 := by rw [hi.1, h]
    simp [sem_protected_buffer_remove, bind, pure, sem_count, h0, NULL]

/-- Witness of C3: capacity 1 holding the item 3, and capacity 1 holding nothing. -/
theorem nonblocking_failure_is_noop_witness :
    (∃ t, call (cond_protected_buffer_add 9) ⟨⟨1, [3]⟩, 1, 0⟩ = Except.ok (0, t) ∧
      t.b = ⟨⟨1, [3]⟩, 1, 0⟩) ∧
    (∃ t, call cond_protected_buffer_remove ⟨⟨1, []⟩, 0, 1⟩ = Except.ok (NULL, t) ∧
      t.b = ⟨⟨1, []⟩, 0, 1⟩) ∧
    (∃ t, call (sem_protected_buffer_add 9) ⟨⟨1, [3]⟩, 1, 0⟩ = Except.ok (0, t) ∧
      t.b = ⟨⟨1, [3]⟩, 1, 0⟩) ∧
    (∃ t, call sem_protected_buffer_remove ⟨⟨1, []⟩, 0, 1⟩ = Except.ok (NULL, t) ∧
      t.b = ⟨⟨1, []⟩, 0, 1⟩) :=
  ⟨(nonblocking_failure_is_noop ⟨⟨1, [3]⟩, 1, 0⟩ 9).1 (by decide),
   (nonblocking_failure_is_noop ⟨⟨1, []⟩, 0, 1⟩ 9).2.1 (by decide),
   (nonblocking_failure_is_noop ⟨⟨1, [3]⟩, 1, 0⟩ 9).2.2.1 (by decide) (by decide),
   (nonblocking_failure_is_noop ⟨⟨1, []⟩, 0, 1⟩ 9).2.2.2 (by decide) (by decide)⟩

/-- A failed decrement in the semaphore variant is never followed by a lock. -/
theorem sem_failure_no_lock (req : Request) (b : protected_buffer_t) (r : Ret) (t : Thread)
    (h : call (sem_exec req) b = Except.ok (r, t))
    (hf : ∃ s, Event.sem_trywait s (-1) ∈ t.trace ∨ Event.sem_timedwait s (-1) ∈ t.trace) :
    Event.mutex_lock ∉ t.trace := by
  obtain ⟨s, hf⟩ := hf
  cases req with
  | get env =>
    by_cases h1 : 0 < b.sem_full <;>
      simp [sem_exec, sem_protected_buffer_get, bind, pure, sem_count, sem_set, h1] at h
    obtain ⟨-, rfl⟩ := h
    simp at hf
  | put d env =>
    by_cases h1 : 0 < b.sem_empty <;>
      simp [sem_exec, sem_protected_buffer_put, bind, pure, sem_count, sem_set, h1] at h
    obtain ⟨-, rfl⟩ := h
    simp at hf
  | remove =>
    by_cases h1 : 0 < b.sem_full <;>
      simp [sem_exec, sem_protected_buffer_remove, bind, pure, sem_count, sem_set, h1] at h <;>
      obtain ⟨-, rfl⟩ := h <;> simp at hf ⊢
  | add d =>
    by_cases h1 : 0 < b.sem_empty <;>
      simp [sem_exec, sem_protected_buffer_add, bind, pure, sem_count, sem_set, h1] at h <;>
      obtain ⟨-, rfl⟩ := h <;> simp at hf ⊢
  | poll abstime w =>
    by_cases hv : abstime.valid <;> by_cases h1 : 0 < b.sem_full <;>
      simp [sem_exec, sem_protected_buffer_poll, bind, pure, sem_count, sem_set, h1, hv] at h <;>
      obtain ⟨-, rfl⟩ := h <;> simp at hf ⊢
  | offer d abstime w =>
    by_cases hv : abstime.valid <;> by_cases h1 : 0 < b.sem_empty <;>
      simp [sem_exec, sem_protected_buffer_offer, bind, pure, sem_count, sem_set, h1, hv] at h <;>
      obtain ⟨-, rfl⟩ := h <;> simp at hf ⊢

/-- Claim C2. In every returning call of the twelve operations, whatever the
state, the arguments and the wake-ups, the mutex monitor accepts the trace and
ends with the mutex free: each `circular_buffer_get` / `circular_buffer_put` and
each read of the storage size happens between a `pthread_mutex_lock` and its
`pthread_mutex_unlock`; and a call of the semaphore variant whose decrement
failed never locks the mutex. -/
theorem storage_only_under_mutex (req : Request) (b : protected_buffer_t) (r : Ret)
    (t : Thread) :
    (call (cond_exec req) b = Except.ok (r, t) → mutex_check t.trace = some false) ∧
    (call (sem_exec req) b = Except.ok (r, t) →
      mutex_check t.trace = some false ∧
      ((∃ s, Event.sem_trywait s (-1) ∈ t.trace ∨ Event.sem_timedwait s (-1) ∈ t.trace) →
        Event.mutex_lock ∉ t.trace)) :=
  ⟨cond_mutex_discipline req b r t,
   fun h => ⟨sem_mutex_discipline req b r t h, sem_failure_no_lock req b r t h⟩⟩

/-- Witness of C2: a `get` of the condition-variable variant that waits once, a
`get` of the semaphore variant, and a `poll` of the semaphore variant that fails. -/
theorem storage_only_under_mutex_witness :
    mutex_check [Event.mutex_lock, Event.read_size 0, Event.cond_wait Cond.cond_full,
      Event.read_size 1, Event.buffer_get 5 true, Event.print_task_activity OpName.get 5,
      Event.cond_signal Cond.cond_empty, Event.mutex_unlock] = some false ∧
    mutex_check [Event.sem_wait Sem.sem_full, Event.mutex_lock, Event.buffer_get 4 true,
      Event.print_task_activity OpName.get 4, Event.mutex_unlock,
      Event.sem_post Sem.sem_empty] = some false ∧
    Event.mutex_lock ∉ [Event.sem_timedwait Sem.sem_full (-1),
      Event.print_task_activity OpName.poll 0] :=
  ⟨(storage_only_under_mutex (Request.get [⟨0, ⟨2, [5]⟩⟩]) ⟨⟨2, []⟩, 0, 0⟩ (Ret.pointer 5)
      ⟨⟨⟨2, []⟩, 0, 0⟩,
        [Event.mutex_lock, Event.read_size 0, Event.cond_wait Cond.cond_full,
         Event.read_size 1, Event.buffer_get 5 true, Event.print_task_activity OpName.get 5,
         Event.cond_signal Cond.cond_empty, Event.mutex_unlock]⟩).1 (by decide),
   ((storage_only_under_mutex (Request.get []) ⟨⟨2, [4]⟩, 1, 1⟩ (Ret.pointer 4)
      ⟨⟨⟨2, []⟩, 0, 2⟩,
        [Event.sem_wait Sem.sem_full, Event.mutex_lock, Event.buffer_get 4 true,
         Event.print_task_activity OpName.get 4, Event.mutex_unlock,
         Event.sem_post Sem.sem_empty]⟩).2 (by decide)).1,
   ((storage_only_under_mutex (Request.poll ⟨0, 0⟩ ⟨0, ⟨2, []⟩⟩) ⟨⟨2, []⟩, 0, 2⟩
      (Ret.pointer 0)
      ⟨⟨⟨2, []⟩, 0, 2⟩,
        [Event.sem_timedwait Sem.sem_full (-1),
         Event.print_task_activity OpName.poll 0]⟩).2 (by decide)).2
      ⟨Sem.sem_full, Or.inr (by decide)⟩⟩

/-- Claim C4, evaluated where it fails. The storage of capacity 1 holds the item 3
and `pthread_cond_timedwait` returns 0 with the storage still full:
`cond_protected_buffer_offer` returns 0 although the wait did not return
`ETIMEDOUT`. Likewise on an empty storage that is still empty when the wait
returns 0, `cond_protected_buffer_poll` returns `NULL`. The deadline is a valid
one. -/
theorem cond_timed_fail_without_timeout :
    (0 : Int) ≠ ETIMEDOUT ∧
    call (cond_protected_buffer_offer 7 ⟨0, 0⟩ ⟨0, ⟨1, [3]⟩⟩) ⟨⟨1, [3]⟩, 0, 0⟩ =
      Except.ok (0, ⟨⟨⟨1, [3]⟩, 0, 0⟩,
        [Event.mutex_lock, Event.read_size 1, Event.cond_timedwait Cond.cond_empty 0,
         Event.buffer_put 7 0, Event.print_task_activity OpName.offer NULL,
         Event.cond_signal Cond.cond_full, Event.mutex_unlock]⟩) ∧
    call (cond_protected_buffer_poll ⟨0, 0⟩ ⟨0, ⟨1, []⟩⟩) ⟨⟨1, []⟩, 0, 0⟩ =
      Except.ok (NULL, ⟨⟨⟨1, []⟩, 0, 0⟩,
        [Event.mutex_lock, Event.read_size 0, Event.cond_timedwait Cond.cond_full 0,
         Event.buffer_get NULL false, Event.print_task_activity OpName.poll NULL,
         Event.cond_signal Cond.cond_empty, Event.mutex_unlock]⟩) := by
  decide

/-- A waiting loop does not unlock the mutex. -/
theorem wait_events_no_unlock (c : Cond) (evs : List Event)
    (h : ∀ e ∈ evs, wait_event c e) : Event.mutex_unlock ∉ evs := by
  intro hm
  rcases h _ hm with ⟨n, hn⟩ | hn <;> cases hn

/-- Counts that agree with the storage are backed by it. -/
theorem sem_inv_eligible (b : protected_buffer_t) (h : sem_inv b) : sem_eligible b := by
  obtain ⟨hf, he, hs⟩ := h
  exact ⟨fun h1 => by omega, fun h1 => by omega⟩

/-- A `get` that returns after finding the storage empty has waited on `cond_full`. -/
theorem cond_get_waits (env : List Wake) (b : protected_buffer_t) (r : Ret) (t : Thread)
    (h : call (cond_exec (Request.get env)) b = Except.ok (r, t)) (h0 : b.buffer.size = 0) :
    Event.cond_wait Cond.cond_full ∈ t.trace := by
  cases env with
  | nil =>
    simp [cond_exec, cond_protected_buffer_get, bind, pure, cond_get_wait,
      circular_buffer_size, h0] at h
  | cons w ws =>
    simp only [call, cond_exec, cond_protected_buffer_get, bind, Exec.bind, pthread_mutex_lock,
      emit, List.nil_append, cond_get_wait, call_circular_buffer_size, circular_buffer_size, h0,
      if_true, pthread_cond_wait, List.cons_append] at h
    cases hw : cond_get_wait ws ⟨⟨w.buffer, b.sem_full, b.sem_empty⟩,
        [Event.mutex_lock, Event.read_size 0, Event.cond_wait Cond.cond_full]⟩ with
    | error e => simp [hw] at h
    | ok v =>
      obtain ⟨u, s1⟩ := v
      obtain ⟨evs, h1, -⟩ := cond_get_wait_spec ws _ s1 hw
      simp [hw, pure] at h
      obtain ⟨-, rfl⟩ := h
      simp [h1]

/-- A `put` that returns after finding the storage full has waited on `cond_empty`. -/
theorem cond_put_waits (d : ptr) (env : List Wake) (b : protected_buffer_t) (r : Ret)
    (t : Thread) (h : call (cond_exec (Request.put d env)) b = Except.ok (r, t))
    (h0 : b.buffer.size = b.buffer.max_size) :
    Event.cond_wait Cond.cond_empty ∈ t.trace := by
  cases env with
  | nil =>
    simp [cond_exec, cond_protected_buffer_put, bind, pure, cond_put_wait, h0] at h
  | cons w ws =>
    simp only [call, cond_exec, cond_protected_buffer_put, bind, Exec.bind, pthread_mutex_lock,
      emit, List.nil_append, cond_put_wait, read_size, read_max_size, h0,
      if_true, pthread_cond_wait, List.cons_append] at h
    cases hw : cond_put_wait ws ⟨⟨w.buffer, b.sem_full, b.sem_empty⟩,
        [Event.mutex_lock, Event.read_size b.buffer.max_size,
          Event.cond_wait Cond.cond_empty]⟩ with
    | error e => simp [hw] at h
    | ok v =>
      obtain ⟨u, s1⟩ := v
      obtain ⟨evs, h1, -⟩ := cond_put_wait_spec ws _ s1 hw
      simp [hw, pure] at h
      obtain ⟨-, rfl⟩ := h
      simp [h1]

/-- The part of the wake-up pairing that `cond_protected_buffer_get` contributes. -/
theorem wakeup_get (env : List Wake) (b : protected_buffer_t) (r : Ret) (t : Thread)
    (h : call (cond_exec (Request.get env)) b = Except.ok (r, t)) :
    (b.buffer.size = 0 → Event.cond_wait Cond.cond_full ∈ t.trace) ∧
    (∀ c, Event.cond_wait c ∈ t.trace → c = Cond.cond_full) ∧
    signalled_before_unlock Cond.cond_empty t.trace := by
  refine ⟨cond_get_waits env b r t h, ?_, ?_⟩
  · obtain ⟨evs, buf, h1, -, -, -, h5⟩ := cond_get_returns env b r t h
    intro c hc
    rw [h5] at hc
    simp at hc
    rcases h1 _ hc with ⟨n, hn⟩ | hn
    · cases hn
    · injection hn
  · obtain ⟨evs, buf, h1, -, -, -, h5⟩ := cond_get_returns env b r t h
    exact ⟨Event.mutex_lock :: evs, _, _, h5, rfl, by
      simpa using wait_events_no_unlock _ evs h1⟩

/-- The part of the wake-up pairing that `cond_protected_buffer_put` contributes. -/
theorem wakeup_put (d : ptr) (env : List Wake) (b : protected_buffer_t) (r : Ret) (t : Thread)
    (h : call (cond_exec (Request.put d env)) b = Except.ok (r, t)) :
    (b.buffer.size = b.buffer.max_size → Event.cond_wait Cond.cond_empty ∈ t.trace) ∧
    (∀ c, Event.cond_wait c ∈ t.trace → c = Cond.cond_empty) ∧
    signalled_before_unlock Cond.cond_full t.trace := by
  refine ⟨cond_put_waits d env b r t h, ?_, ?_⟩
  · obtain ⟨evs, buf, h1, -, -, -, h5⟩ := cond_put_returns d env b r t h
    intro c hc
    rw [h5] at hc
    simp at hc
    rcases h1 _ hc with ⟨n, hn⟩ | hn
    · cases hn
    · injection hn
  · obtain ⟨evs, buf, h1, -, -, -, h5⟩ := cond_put_returns d env b r t h
    exact ⟨Event.mutex_lock :: evs, _, _, h5, rfl, by
      simpa using wait_events_no_unlock _ evs h1⟩

/-- The part of the wake-up pairing that `cond_protected_buffer_poll` contributes. -/
theorem wakeup_poll (abstime : timespec) (w : Wake) (b : protected_buffer_t) (r : Ret)
    (t : Thread) (h : call (cond_exec (Request.poll abstime w)) b = Except.ok (r, t)) :
    (b.buffer.size = 0 → Event.cond_timedwait Cond.cond_full w.r ∈ t.trace) ∧
    (∀ c x, Event.cond_timedwait c x ∈ t.trace → c = Cond.cond_full) ∧
    ((∃ d, Event.buffer_get d true ∈ t.trace) →
      signalled_before_unlock Cond.cond_empty t.trace) := by
  by_cases h1 : b.buffer.size = 0 <;> by_cases h2 : w.r = ETIMEDOUT <;>
    simp [cond_exec, cond_protected_buffer_poll, bind, pure, h1, h2] at h <;>
    obtain ⟨-, rfl⟩ := h
  · simp [h2]
  · refine ⟨by simp, by simp, ?_⟩
    rintro ⟨d, hd⟩
    simp at hd
    exact ⟨[Event.mutex_lock, Event.read_size 0, Event.cond_timedwait Cond.cond_full w.r],
      Event.buffer_get (circular_buffer_get w.buffer).2 true,
      Event.print_task_activity OpName.poll (circular_buffer_get w.buffer).2,
      by simp [hd.2], rfl, by simp⟩
  · refine ⟨by simp [h1], by simp, fun _ => ?_⟩
    exact ⟨[Event.mutex_lock, Event.read_size b.buffer.size],
      Event.buffer_get (circular_buffer_get b.buffer).2 true,
      Event.print_task_activity OpName.poll (circular_buffer_get b.buffer).2,
      by simp [Nat.pos_of_ne_zero h1], rfl, by simp⟩
  · refine ⟨by simp [h1], by simp, fun _ => ?_⟩
    exact ⟨[Event.mutex_lock, Event.read_size b.buffer.size],
      Event.buffer_get (circular_buffer_get b.buffer).2 true,
      Event.print_task_activity OpName.poll (circular_buffer_get b.buffer).2,
      by simp [Nat.pos_of_ne_zero h1], rfl, by simp⟩

/-- The part of the wake-up pairing that `cond_protected_buffer_offer` contributes. -/
theorem wakeup_offer (d : ptr) (abstime : timespec) (w : Wake) (b : protected_buffer_t)
    (r : Ret) (t : Thread)
    (h : call (cond_exec (Request.offer d abstime w)) b = Except.ok (r, t)) :
    (b.buffer.size = b.buffer.max_size → Event.cond_timedwait Cond.cond_empty w.r ∈ t.trace) ∧
    (∀ c x, Event.cond_timedwait c x ∈ t.trace → c = Cond.cond_empty) ∧
    (r = Ret.int 1 → signalled_before_unlock Cond.cond_full t.trace) := by
  by_cases h1 : b.buffer.size = b.buffer.max_size <;> by_cases h2 : w.r = ETIMEDOUT <;>
    by_cases h3 : w.r = 0 <;>
    simp [cond_exec, cond_protected_buffer_offer, bind, pure, h1, h2, h3] at h <;>
    obtain ⟨rfl, rfl⟩ := h
  · simp [h2]
  · simp [h2]
  · refine ⟨by simp [h3], by simp, fun hr => ?_⟩
    simp at hr
    exact ⟨[Event.mutex_lock, Event.read_size b.buffer.max_size,
      Event.cond_timedwait Cond.cond_empty w.r], Event.buffer_put d 1,
      Event.print_task_activity OpName.offer d, by simp [hr, h3], by simp [Event.mutates],
      by simp⟩
  all_goals
    refine ⟨by simp [h1], by simp, fun hr => ?_⟩
    simp at hr
    exact ⟨[Event.mutex_lock, Event.read_size b.buffer.size], Event.buffer_put d 1,
      Event.print_task_activity OpName.offer d, by simp [hr], by simp [Event.mutates], by simp⟩

/-- The part of the wake-up pairing that `cond_protected_buffer_remove` contributes. -/
theorem wakeup_remove (b : protected_buffer_t) (r : Ret) (t : Thread)
    (h : call (cond_exec Request.remove) b = Except.ok (r, t))
    (hs : ∃ d, Event.buffer_get d true ∈ t.trace) :
    signalled_before_unlock Cond.cond_empty t.trace := by
  simp [cond_exec, cond_protected_buffer_remove, bind, pure] at h
  obtain ⟨-, rfl⟩ := h
  obtain ⟨d, hd⟩ := hs
  simp at hd
  exact ⟨[Event.mutex_lock], Event.buffer_get (circular_buffer_get b.buffer).2 true,
    Event.print_task_activity OpName.remove (circular_buffer_get b.buffer).2,
    by simp [hd.2], rfl, by simp⟩

/-- The part of the wake-up pairing that `cond_protected_buffer_add` contributes. -/
theorem wakeup_add (d : ptr) (b : protected_buffer_t) (r : Ret) (t : Thread)
    (h : call (cond_exec (Request.add d)) b = Except.ok (r, t)) (hr : r = Ret.int 1) :
    signalled_before_unlock Cond.cond_full t.trace := by
  simp [cond_exec, cond_protected_buffer_add, bind, pure] at h
  obtain ⟨rfl, rfl⟩ := h
  simp at hr
  exact ⟨[Event.mutex_lock], Event.buffer_put d 1, Event.print_task_activity OpName.add d,
    by simp [hr], by simp [Event.mutates], by simp⟩

/-- Claim C8. In the condition-variable variant `get` and `poll` wait, when they
find the storage empty, on `cond_full` and on no other condition variable, and
every `put`, and every `add` / `offer` that returns 1, signals `cond_full`; `put`
and `offer` wait, when they find the storage full, on `cond_empty` and on no
other, and every `get`, and every `remove` / `poll` that removed an item, signals
`cond_empty`. Each of these signals follows the storage call and comes just
before `pthread_mutex_unlock`. -/
theorem wakeup_pairing (b : protected_buffer_t) (r : Ret) (t : Thread) :
    (∀ env, call (cond_exec (Request.get env)) b = Except.ok (r, t) →
      (b.buffer.size = 0 → Event.cond_wait Cond.cond_full ∈ t.trace) ∧
      (∀ c, Event.cond_wait c ∈ t.trace → c = Cond.cond_full) ∧
      signalled_before_unlock Cond.cond_empty t.trace) ∧
    (∀ abstime w, call (cond_exec (Request.poll abstime w)) b = Except.ok (r, t) →
      (b.buffer.size = 0 → Event.cond_timedwait Cond.cond_full w.r ∈ t.trace) ∧
      (∀ c x, Event.cond_timedwait c x ∈ t.trace → c = Cond.cond_full) ∧
      ((∃ d, Event.buffer_get d true ∈ t.trace) →
        signalled_before_unlock Cond.cond_empty t.trace)) ∧
    (call (cond_exec Request.remove) b = Except.ok (r, t) →
      (∃ d, Event.buffer_get d true ∈ t.trace) →
        signalled_before_unlock Cond.cond_empty t.trace) ∧
    (∀ d env, call (cond_exec (Request.put d env)) b = Except.ok (r, t) →
      (b.buffer.size = b.buffer.max_size → Event.cond_wait Cond.cond_empty ∈ t.trace) ∧
      (∀ c, Event.cond_wait c ∈ t.trace → c = Cond.cond_empty) ∧
      signalled_before_unlock Cond.cond_full t.trace) ∧
    (∀ d abstime w, call (cond_exec (Request.offer d abstime w)) b = Except.ok (r, t) →
      (b.buffer.size = b.buffer.max_size →
        Event.cond_timedwait Cond.cond_empty w.r ∈ t.trace) ∧
      (∀ c x, Event.cond_timedwait c x ∈ t.trace → c = Cond.cond_empty) ∧
      (r = Ret.int 1 → signalled_before_unlock Cond.cond_full t.trace)) ∧
    (∀ d, call (cond_exec (Request.add d)) b = Except.ok (r, t) →
      r = Ret.int 1 → signalled_before_unlock Cond.cond_full t.trace) :=
  ⟨fun env h => wakeup_get env b r t h,
   fun abstime w h => wakeup_poll abstime w b r t h,
   fun h => wakeup_remove b r t h,
   fun d env h => wakeup_put d env b r t h,
   fun d abstime w h => wakeup_offer d abstime w b r t h,
   fun d h => wakeup_add d b r t h⟩

/-- Witness of C8: a `get` and a `poll` on an empty storage that are woken once an
item is there, a `remove`, then a `put` and an `offer` on a full storage that are
woken once a slot is free, and an `add`. -/
theorem wakeup_pairing_witness :
    (Event.cond_wait Cond.cond_full ∈
        [Event.mutex_lock, Event.read_size 0, Event.cond_wait Cond.cond_full,
         Event.read_size 1, Event.buffer_get 5 true, Event.print_task_activity OpName.get 5,
         Event.cond_signal Cond.cond_empty, Event.mutex_unlock] ∧
      signalled_before_unlock Cond.cond_empty
        [Event.mutex_lock, Event.read_size 0, Event.cond_wait Cond.cond_full,
         Event.read_size 1, Event.buffer_get 5 true, Event.print_task_activity OpName.get 5,
         Event.cond_signal Cond.cond_empty, Event.mutex_unlock]) ∧
    signalled_before_unlock Cond.cond_empty
      [Event.mutex_lock, Event.read_size 0, Event.cond_timedwait Cond.cond_full 0,
       Event.buffer_get 3 true, Event.print_task_activity OpName.poll 3,
       Event.cond_signal Cond.cond_empty, Event.mutex_unlock] ∧
    signalled_before_unlock Cond.cond_empty
      [Event.mutex_lock, Event.buffer_get 3 true, Event.print_task_activity OpName.remove 3,
       Event.cond_signal Cond.cond_empty, Event.mutex_unlock] ∧
    (Event.cond_wait Cond.cond_empty ∈
        [Event.mutex_lock, Event.read_size 1, Event.cond_wait Cond.cond_empty,
         Event.read_size 0, Event.buffer_put 7 1, Event.print_task_activity OpName.put 7,
         Event.cond_signal Cond.cond_full, Event.mutex_unlock] ∧
      signalled_before_unlock Cond.cond_full
        [Event.mutex_lock, Event.read_size 1, Event.cond_wait Cond.cond_empty,
         Event.read_size 0, Event.buffer_put 7 1, Event.print_task_activity OpName.put 7,
         Event.cond_signal Cond.cond_full, Event.mutex_unlock]) ∧
    signalled_before_unlock Cond.cond_full
      [Event.mutex_lock, Event.read_size 1, Event.cond_timedwait Cond.cond_empty 0,
       Event.buffer_put 7 1, Event.print_task_activity OpName.offer 7,
       Event.cond_signal Cond.cond_full, Event.mutex_unlock] ∧
    signalled_before_unlock Cond.cond_full
      [Event.mutex_lock, Event.buffer_put 7 1, Event.print_task_activity OpName.add 7,
       Event.cond_signal Cond.cond_full, Event.mutex_unlock] := by
  have hget := (wakeup_pairing ⟨⟨2, []⟩, 0, 0⟩ (Ret.pointer 5)
    ⟨⟨⟨2, []⟩, 0, 0⟩,
      [Event.mutex_lock, Event.read_size 0, Event.cond_wait Cond.cond_full,
       Event.read_size 1, Event.buffer_get 5 true, Event.print_task_activity OpName.get 5,
       Event.cond_signal Cond.cond_empty, Event.mutex_unlock]⟩).1
    [⟨0, ⟨2, [5]⟩⟩] (by decide)
  have hpoll := (wakeup_pairing ⟨⟨1, []⟩, 0, 0⟩ (Ret.pointer 3)
    ⟨⟨⟨1, []⟩, 0, 0⟩,
      [Event.mutex_lock, Event.read_size 0, Event.cond_timedwait Cond.cond_full 0,
       Event.buffer_get 3 true, Event.print_task_activity OpName.poll 3,
       Event.cond_signal Cond.cond_empty, Event.mutex_unlock]⟩).2.1
    ⟨0, 0⟩ ⟨0, ⟨1, [3]⟩⟩ (by decide)
  have hremove := (wakeup_pairing ⟨⟨1, [3]⟩, 0, 0⟩ (Ret.pointer 3)
    ⟨⟨⟨1, []⟩, 0, 0⟩,
      [Event.mutex_lock, Event.buffer_get 3 true, Event.print_task_activity OpName.remove 3,
       Event.cond_signal Cond.cond_empty, Event.mutex_unlock]⟩).2.2.1
    (by decide) ⟨3, by decide⟩
  have hput := (wakeup_pairing ⟨⟨1, [3]⟩, 0, 0⟩ Ret.unit
    ⟨⟨⟨1, [7]⟩, 0, 0⟩,
      [Event.mutex_lock, Event.read_size 1, Event.cond_wait Cond.cond_empty,
       Event.read_size 0, Event.buffer_put 7 1, Event.print_task_activity OpName.put 7,
       Event.cond_signal Cond.cond_full, Event.mutex_unlock]⟩).2.2.2.1
    7 [⟨0, ⟨1, []⟩⟩] (by decide)
  have hoffer := (wakeup_pairing ⟨⟨1, [3]⟩, 0, 0⟩ (Ret.int 1)
    ⟨⟨⟨1, [7]⟩, 0, 0⟩,
      [Event.mutex_lock, Event.read_size 1, Event.cond_timedwait Cond.cond_empty 0,
       Event.buffer_put 7 1, Event.print_task_activity OpName.offer 7,
       Event.cond_signal Cond.cond_full, Event.mutex_unlock]⟩).2.2.2.2.1
    7 ⟨0, 0⟩ ⟨0, ⟨1, []⟩⟩ (by decide)
  have hadd := (wakeup_pairing ⟨⟨1, []⟩, 0, 0⟩ (Ret.int 1)
    ⟨⟨⟨1, [7]⟩, 0, 0⟩,
      [Event.mutex_lock, Event.buffer_put 7 1, Event.print_task_activity OpName.add 7,
       Event.cond_signal Cond.cond_full, Event.mutex_unlock]⟩).2.2.2.2.2
    7 (by decide) rfl
  exact ⟨⟨hget.1 (by decide), hget.2.2⟩, hpoll.2.2 ⟨3, by decide⟩, hremove,
    ⟨hput.1 (by decide), hput.2.2⟩, hoffer.2.2 rfl, hadd⟩

/-- The structure `cond_protected_buffer_init` builds for a non-negative length. -/
theorem cond_protected_buffer_init_eq (n : Int) (hn : 0 ≤ n) :
    cond_protected_buffer_init n =
      some { buffer := { max_size := n.toNat, items := [] }, sem_full := 0, sem_empty := 0 } := by
  have h : ¬ n < 0 := by omega
  simp [cond_protected_buffer_init, circular_buffer_init, h]

/-- One step of the contract on a storage of non-`NULL` items: the size goes up by
one on a successful insertion, down by one on a successful extraction, and stays
otherwise; the items stay non-`NULL`. -/
theorem contract_step_conservation (ck : Bool) (buf buf1 : circular_buffer_t) (op : Op)
    (r : Ret) (hnn : ∀ x ∈ buf.items, x ≠ NULL) (hop : op.nonnull)
    (h : contract_step ck buf op = Except.ok (r, buf1)) :
    (∀ x ∈ buf1.items, x ≠ NULL) ∧
    buf1.size + (if extracted op r then 1 else 0) =
      buf.size + (if inserted op r then 1 else 0) := by
  obtain ⟨m, items⟩ := buf
  cases op with
  | put d =>
    by_cases h0 : items.length = m <;>
      simp [contract_step, circular_buffer_put, circular_buffer_t.size, h0] at h
    obtain ⟨rfl, rfl⟩ := h
    simp only [Op.nonnull] at hop
    simp at hnn
    simp [inserted, extracted, circular_buffer_t.size]
    intro x hx
    rcases hx with hx | hx
    · exact hnn x hx
    · exact hx ▸ hop
  | add d =>
    by_cases h0 : items.length = m <;>
      simp [contract_step, circular_buffer_put, circular_buffer_t.size, h0] at h <;>
      obtain ⟨rfl, rfl⟩ := h
    · simpa [inserted, extracted, circular_buffer_t.size] using hnn
    · simp only [Op.nonnull] at hop
      simp at hnn
      simp [inserted, extracted, circular_buffer_t.size]
      intro x hx
      rcases hx with hx | hx
      · exact hnn x hx
      · exact hx ▸ hop
  | offer d abstime w =>
    by_cases hc : ck = true ∧ ¬ abstime.valid
    · simp only [contract_step, hc] at h
      simp at h
      obtain ⟨rfl, rfl⟩ := h
      simpa [inserted, extracted, circular_buffer_t.size] using hnn
    · by_cases h0 : items.length = m <;>
        simp [contract_step, circular_buffer_put, circular_buffer_t.size, h0, hc] at h <;>
        obtain ⟨rfl, rfl⟩ := h
      · simpa [inserted, extracted, circular_buffer_t.size] using hnn
      · simp only [Op.nonnull] at hop
        simp at hnn
        simp [inserted, extracted, circular_buffer_t.size]
        intro x hx
        rcases hx with hx | hx
        · exact hnn x hx
        · exact hx ▸ hop
  | get =>
    cases items with
    | nil => simp [contract_step, circular_buffer_t.size] at h
    | cons y ys =>
      simp [contract_step, circular_buffer_get, circular_buffer_t.size] at h
      obtain ⟨rfl, rfl⟩ := h
      simp at hnn
      simp [inserted, extracted, circular_buffer_t.size, hnn.1]
      exact hnn.2
  | remove =>
    cases items with
    | nil =>
      simp [contract_step, circular_buffer_get] at h
      obtain ⟨rfl, rfl⟩ := h
      simp [inserted, extracted, circular_buffer_t.size]
    | cons y ys =>
      simp [contract_step, circular_buffer_get] at h
      obtain ⟨rfl, rfl⟩ := h
      simp at hnn
      simp [inserted, extracted, circular_buffer_t.size, hnn.1]
      exact hnn.2
  | poll abstime w =>
    by_cases hc : ck = true ∧ ¬ abstime.valid
    · simp only [contract_step, hc] at h
      simp at h
      obtain ⟨rfl, rfl⟩ := h
      simpa [inserted, extracted, circular_buffer_t.size] using hnn
    · cases items with
      | nil =>
        simp [contract_step, circular_buffer_get, hc] at h
        obtain ⟨rfl, rfl⟩ := h
        simp [inserted, extracted, circular_buffer_t.size]
      | cons y ys =>
        simp [contract_step, circular_buffer_get, hc] at h
        obtain ⟨rfl, rfl⟩ := h
        simp at hnn
        simp [inserted, extracted, circular_buffer_t.size, hnn.1]
        exact hnn.2

/-- Conservation along a run of the contract. -/
theorem contract_run_conservation (ck : Bool) (ops : List Op) (buf buf1 : circular_buffer_t)
    (rs : List Ret) (hnn : ∀ x ∈ buf.items, x ≠ NULL) (hops : ∀ op ∈ ops, op.nonnull)
    (h : contract_run ck buf ops = Except.ok (rs, buf1)) :
    buf1.size + successes extracted ops rs = buf.size + successes inserted ops rs := by
  induction ops generalizing buf rs with
  | nil =>
    simp [contract_run] at h
    obtain ⟨rfl, rfl⟩ := h
    simp [successes]
  | cons op ops ih =>
    simp only [contract_run] at h
    cases h1 : contract_step ck buf op with
    | error e => simp [h1] at h
    | ok v =>
      obtain ⟨r, b1⟩ := v
      simp only [h1] at h
      cases h2 : contract_run ck b1 ops with
      | error e => simp [h2] at h
      | ok v2 =>
        obtain ⟨rs2, b2⟩ := v2
        simp [h2] at h
        obtain ⟨rfl, rfl⟩ := h
        obtain ⟨hnn1, hstep⟩ := contract_step_conservation ck buf b1 op r hnn (hops op (by simp)) h1
        have := ih b1 rs2 hnn1 (fun x hx => hops x (by simp [hx])) h2
        simp only [successes]
        omega

/-- Claim C6. On a freshly initialised buffer of either variant, for every list of
operations handing in non-`NULL` items and run one after another to completion,
the final storage size is the number of successful insertions (`put` returned,
`add` / `offer` returned 1) minus the number of successful extractions (`get` /
`remove` / `poll` returned an item). -/
theorem conservation (n : Int) (hn : 0 ≤ n) (ops : List Op) (hops : ∀ op ∈ ops, op.nonnull) :
    ∃ bc bs, cond_protected_buffer_init n = some bc ∧ sem_protected_buffer_init n = some bs ∧
      (∀ rs b, cond_run bc ops = Except.ok (rs, b) →
        (b.buffer.size : Int) = successes inserted ops rs - successes extracted ops rs) ∧
      (∀ rs b, sem_run bs ops = Except.ok (rs, b) →
        (b.buffer.size : Int) = successes inserted ops rs - successes extracted ops rs) := by
  refine ⟨_, _, cond_protected_buffer_init_eq n hn, sem_protected_buffer_init_eq n hn, ?_, ?_⟩
  · intro rs b h
    have h1 := cond_run_contract_of_ok ops _ b rs h
    have h2 := contract_run_conservation false ops _ _ rs (by simp) hops h1
    simp only [circular_buffer_t.size, List.length_nil] at h2 ⊢
    omega
  · intro rs b h
    have hinv : sem_inv ⟨⟨n.toNat, []⟩, 0, n.toNat⟩ := ⟨rfl, rfl, Nat.zero_le _⟩
    rw [sem_run_contract ops _ hinv] at h
    cases h1 : contract_run true ⟨n.toNat, []⟩ ops with
    | error e => simp [h1, map_state] at h
    | ok v =>
      obtain ⟨rs1, buf⟩ := v
      simp [h1, map_state] at h
      obtain ⟨rfl, rfl⟩ := h
      have h2 := contract_run_conservation true ops _ _ rs1 (by simp) hops h1
      simp only [circular_buffer_t.size, List.length_nil, sem_around] at h2 ⊢
      omega

/-- Witness of C6: capacity 2; `put 5`, `add 6`, `add 7` (rejected), `remove`,
`poll`, `poll` (empty, times out), `offer 8`: four insertions, two extractions,
two items left. -/
theorem conservation_witness :
    ∃ bc bs, cond_protected_buffer_init 2 = some bc ∧ sem_protected_buffer_init 2 = some bs ∧
      cond_run bc [Op.put 5, Op.add 6, Op.add 7, Op.remove, Op.poll ⟨0, 0⟩ 0,
          Op.poll ⟨0, 0⟩ ETIMEDOUT, Op.offer 8 ⟨0, 0⟩ 0, Op.add 9] =
        Except.ok ([Ret.unit, Ret.int 1, Ret.int 0, Ret.pointer 5, Ret.pointer 6,
          Ret.pointer NULL, Ret.int 1, Ret.int 1], ⟨⟨2, [8, 9]⟩, 0, 0⟩) ∧
      sem_run bs [Op.put 5, Op.add 6, Op.add 7, Op.remove, Op.poll ⟨0, 0⟩ 0,
          Op.poll ⟨0, 0⟩ ETIMEDOUT, Op.offer 8 ⟨0, 0⟩ 0, Op.add 9] =
        Except.ok ([Ret.unit, Ret.int 1, Ret.int 0, Ret.pointer 5, Ret.pointer 6,
          Ret.pointer NULL, Ret.int 1, Ret.int 1], ⟨⟨2, [8, 9]⟩, 2, 0⟩) ∧
      ((2 : Nat) : Int) = (4 : Nat) - (2 : Nat) := by
  obtain ⟨bc, bs, hc, hs, h1, h2⟩ := conservation 2 (by decide)
    [Op.put 5, Op.add 6, Op.add 7, Op.remove, Op.poll ⟨0, 0⟩ 0, Op.poll ⟨0, 0⟩ ETIMEDOUT,
      Op.offer 8 ⟨0, 0⟩ 0, Op.add 9] (by decide)
  have hbc : bc = ⟨⟨2, []⟩, 0, 0⟩ := by
    have h : cond_protected_buffer_init 2 = some ⟨⟨2, []⟩, 0, 0⟩ := by decide
    rw [h] at hc
    exact (Option.some.inj hc).symm
  have hbs : bs = ⟨⟨2, []⟩, 0, 2⟩ := by
    have h : sem_protected_buffer_init 2 = some ⟨⟨2, []⟩, 0, 2⟩ := by decide
    rw [h] at hs
    exact (Option.some.inj hs).symm
  subst hbc hbs
  have hcr : cond_run ⟨⟨2, []⟩, 0, 0⟩ [Op.put 5, Op.add 6, Op.add 7, Op.remove,
      Op.poll ⟨0, 0⟩ 0, Op.poll ⟨0, 0⟩ ETIMEDOUT, Op.offer 8 ⟨0, 0⟩ 0, Op.add 9] =
        Except.ok ([Ret.unit, Ret.int 1, Ret.int 0, Ret.pointer 5, Ret.pointer 6,
          Ret.pointer NULL, Ret.int 1, Ret.int 1], ⟨⟨2, [8, 9]⟩, 0, 0⟩) := by decide
  have hsr : sem_run ⟨⟨2, []⟩, 0, 2⟩ [Op.put 5, Op.add 6, Op.add 7, Op.remove,
      Op.poll ⟨0, 0⟩ 0, Op.poll ⟨0, 0⟩ ETIMEDOUT, Op.offer 8 ⟨0, 0⟩ 0, Op.add 9] =
        Except.ok ([Ret.unit, Ret.int 1, Ret.int 0, Ret.pointer 5, Ret.pointer 6,
          Ret.pointer NULL, Ret.int 1, Ret.int 1], ⟨⟨2, [8, 9]⟩, 2, 0⟩) := by decide
  exact ⟨_, _, hc, hs, hcr, hsr, h1 _ _ hcr⟩

/-- Mapping the final state twice. -/
theorem map_state_map_state {α σ τ υ : Type} (f : σ → τ) (g : τ → υ)
    (x : Except Fault (α × σ)) :
    map_state g (map_state f x) = map_state (fun s => g (f s)) x := by
  cases x with
  | error e => rfl
  | ok v => rfl

/-- With a deadline the timed waits accept, checking it first changes nothing. -/
theorem contract_step_checks (buf : circular_buffer_t) (op : Op) (h : ¬ op.rejected) :
    contract_step true buf op = contract_step false buf op := by
  cases op with
  | offer d abstime r =>
    simp only [Op.rejected, Decidable.not_not] at h
    simp [contract_step, h]
  | poll abstime r =>
    simp only [Op.rejected, Decidable.not_not] at h
    simp [contract_step, h]
  | get => rfl
  | put d => rfl
  | remove => rfl
  | add d => rfl

/-- With deadlines the timed waits accept, checking them first changes no run. -/
theorem contract_run_checks (ops : List Op) (buf : circular_buffer_t)
    (h : ∀ op ∈ ops, ¬ op.rejected) :
    contract_run true buf ops = contract_run false buf ops := by
  induction ops generalizing buf with
  | nil => rfl
  | cons op ops ih =>
    simp only [contract_run]
    rw [contract_step_checks buf op (h op (by simp))]
    cases contract_step false buf op with
    | error e => rfl
    | ok v =>
      obtain ⟨r, b1⟩ := v
      simp only []
      rw [ih b1 (fun x hx => h x (by simp [hx]))]

/-- Claim C7 as stated fails. On a fresh buffer of capacity 1, `offer` of the item
7 with a deadline whose `tv_nsec` is -1: `cond_protected_buffer_offer` finds room,
never looks at the deadline, inserts and returns 1, while
`sem_protected_buffer_offer` hands the deadline to `sem_timedwait`, which refuses
it, and returns 0 with nothing inserted. -/
theorem variants_differ_on_invalid_deadline :
    observe (cond_protected_buffer_init 1) cond_run [Op.offer 7 ⟨0, -1⟩ ETIMEDOUT] =
      some (Except.ok ([Ret.int 1], [7])) ∧
    observe (sem_protected_buffer_init 1) sem_run [Op.offer 7 ⟨0, -1⟩ ETIMEDOUT] =
      some (Except.ok ([Ret.int 0], [])) ∧
    ¬ (∀ (n : Int) (ops : List Op), (∀ op ∈ ops, op.times_out) →
        observe (cond_protected_buffer_init n) cond_run ops =
          observe (sem_protected_buffer_init n) sem_run ops) := by
  refine ⟨by decide, by decide, fun h => ?_⟩
  have h1 := h 1 [Op.offer 7 ⟨0, -1⟩ ETIMEDOUT] (by decide)
  revert h1
  decide

/-- Claim C7, amended. For every capacity and every list of operations run one
after another from a freshly initialised buffer, the deadlines of `offer` and
`poll` being valid (`0 <= tv_nsec < 1000000000`) and the timed waits that cannot
be satisfied ending in a timeout, the condition-variable variant and the
semaphore variant behave alike: construction succeeds for both or for neither, a
call blocks in both or in neither, and the runs return the same results in order
and end with the same storage contents. -/
theorem variants_equivalent_on_valid_deadlines (n : Int) (ops : List Op)
    (h : ∀ op ∈ ops, op.times_out) (hv : ∀ op ∈ ops, ¬ op.rejected) :
    observe (cond_protected_buffer_init n) cond_run ops =
      observe (sem_protected_buffer_init n) sem_run ops := by
  by_cases hn : n < 0
  · simp [observe, cond_protected_buffer_init, sem_protected_buffer_init, circular_buffer_init, hn]
  · have hn0 : 0 ≤ n := by omega
    have hinv : sem_inv ⟨⟨n.toNat, []⟩, 0, n.toNat⟩ := ⟨rfl, rfl, Nat.zero_le _⟩
    rw [cond_protected_buffer_init_eq n hn0, sem_protected_buffer_init_eq n hn0]
    simp only [observe]
    rw [cond_run_contract ops _ h, sem_run_contract ops _ hinv, map_state_map_state,
      map_state_map_state]
    have hck : contract_run true ⟨n.toNat, []⟩ ops = contract_run false ⟨n.toNat, []⟩ ops :=
      contract_run_checks ops _ hv
    rw [hck]
    rfl

/-- Witness of C7 amended: capacity 1 and valid deadlines; the second `add` and
the `offer` find the storage full, the second `remove` and the `poll` find it
empty. -/
theorem variants_equivalent_on_valid_deadlines_witness :
    observe (cond_protected_buffer_init 1) cond_run
        [Op.add 5, Op.add 6, Op.offer 7 ⟨0, 0⟩ ETIMEDOUT, Op.get, Op.remove,
          Op.poll ⟨0, 0⟩ ETIMEDOUT, Op.put 8] =
      observe (sem_protected_buffer_init 1) sem_run
        [Op.add 5, Op.add 6, Op.offer 7 ⟨0, 0⟩ ETIMEDOUT, Op.get, Op.remove,
          Op.poll ⟨0, 0⟩ ETIMEDOUT, Op.put 8] ∧
    observe (sem_protected_buffer_init 1) sem_run
        [Op.add 5, Op.add 6, Op.offer 7 ⟨0, 0⟩ ETIMEDOUT, Op.get, Op.remove,
          Op.poll ⟨0, 0⟩ ETIMEDOUT, Op.put 8] =
      some (Except.ok ([Ret.int 1, Ret.int 0, Ret.int 0, Ret.pointer 5, Ret.pointer NULL,
        Ret.pointer NULL, Ret.unit], [8])) :=
  ⟨variants_equivalent_on_valid_deadlines 1 _ (by decide) (by decide), by decide⟩

/-- A contract run over a concatenation is the run over the first part followed by
the run over the second. -/
theorem contract_run_append (ck : Bool) (ops1 ops2 : List Op) (buf : circular_buffer_t) :
    contract_run ck buf (ops1 ++ ops2) =
      match contract_run ck buf ops1 with
      | Except.error e => Except.error e
      | Except.ok (rs1, buf1) =>
        match contract_run ck buf1 ops2 with
        | Except.error e => Except.error e
        | Except.ok (rs2, buf2) => Except.ok (rs1 ++ rs2, buf2) := by
  induction ops1 generalizing buf with
  | nil =>
    simp only [List.nil_append, contract_run]
    cases contract_run ck buf ops2 with
    | error e => rfl
    | ok v => rfl
  | cons op ops ih =>
    have hc : ∀ l, contract_run ck buf (op :: l) =
        match contract_step ck buf op with
        | Except.error e => Except.error e
        | Except.ok (r, buf1) =>
          match contract_run ck buf1 l with
          | Except.error e => Except.error e
          | Except.ok (rs, buf2) => Except.ok (r :: rs, buf2) := fun l => rfl
    rw [List.cons_append, hc, hc]
    cases contract_step ck buf op with
    | error e => rfl
    | ok v =>
      obtain ⟨r, b1⟩ := v
      simp only []
      rw [ih b1]
      cases contract_run ck b1 ops with
      | error e => rfl
      | ok v1 =>
        obtain ⟨rs1, b2⟩ := v1
        simp only []
        cases contract_run ck b2 ops2 with
        | error e => rfl
        | ok v2 => rfl

/-- Putting items into a storage that has room for all of them appends them. -/
theorem contract_run_puts (ck : Bool) (xs : List ptr) (m : Nat) (items : List ptr)
    (h : items.length + xs.length ≤ m) :
    contract_run ck ⟨m, items⟩ (xs.map Op.put) =
      Except.ok (List.replicate xs.length Ret.unit, ⟨m, items ++ xs⟩) := by
  induction xs generalizing items with
  | nil => simp [contract_run]
  | cons x xs ih =>
    simp only [List.length_cons] at h
    have h0 : ¬ items.length = m := by omega
    have h1 : (items ++ [x]).length + xs.length ≤ m := by simp; omega
    simp [contract_run, contract_step, circular_buffer_put, circular_buffer_t.size, h0, ih _ h1,
      List.replicate_succ]

/-- Getting as many times as there are items returns them oldest first and
empties the storage. -/
theorem contract_run_gets (ck : Bool) (m : Nat) (items : List ptr) :
    contract_run ck ⟨m, items⟩ (List.replicate items.length Op.get) =
      Except.ok (items.map Ret.pointer, ⟨m, []⟩) := by
  induction items with
  | nil => simp [contract_run]
  | cons x xs ih =>
    simp [contract_run, contract_step, circular_buffer_get, circular_buffer_t.size, ih,
      List.replicate_succ]

/-- Claim C9. On a freshly initialised buffer of either variant whose capacity is
at least the number of items, putting the items in order with `put` and then
calling `get` as many times returns the items in the same order and leaves the
storage empty. -/
theorem fifo_round_trip (n : Int) (xs : List ptr) (hcap : (xs.length : Int) ≤ n) :
    ∃ bc bs, cond_protected_buffer_init n = some bc ∧ sem_protected_buffer_init n = some bs ∧
      (∃ b, cond_run bc (xs.map Op.put ++ List.replicate xs.length Op.get) =
          Except.ok (List.replicate xs.length Ret.unit ++ xs.map Ret.pointer, b) ∧
        b.buffer.items = []) ∧
      (∃ b, sem_run bs (xs.map Op.put ++ List.replicate xs.length Op.get) =
          Except.ok (List.replicate xs.length Ret.unit ++ xs.map Ret.pointer, b) ∧
        b.buffer.items = []) := by
  have hn : 0 ≤ n := by omega
  have hlen : ([] : List ptr).length + xs.length ≤ n.toNat := by simp; omega
  have hrun : ∀ ck, contract_run ck ⟨n.toNat, []⟩
      (xs.map Op.put ++ List.replicate xs.length Op.get) =
      Except.ok (List.replicate xs.length Ret.unit ++ xs.map Ret.pointer, ⟨n.toNat, []⟩) := by
    intro ck
    rw [contract_run_append, contract_run_puts ck xs _ _ hlen]
    simp only [List.nil_append]
    rw [contract_run_gets]
  have hto : ∀ op ∈ xs.map Op.put ++ List.replicate xs.length Op.get, op.times_out := by
    intro op hop
    simp at hop
    rcases hop with ⟨a, -, rfl⟩ | ⟨-, rfl⟩ <;> exact True.intro
  have hinv : sem_inv ⟨⟨n.toNat, []⟩, 0, n.toNat⟩ := ⟨rfl, rfl, Nat.zero_le _⟩
  refine ⟨_, _, cond_protected_buffer_init_eq n hn, sem_protected_buffer_init_eq n hn, ?_, ?_⟩
  · rw [cond_run_contract _ _ hto, hrun]
    exact ⟨_, rfl, rfl⟩
  · rw [sem_run_contract _ _ hinv, hrun]
    exact ⟨_, rfl, rfl⟩

/-- Witness of C9: capacity 2; `put(1)`, `put(2)`, then `get()` returns 1 and
`get()` returns 2. -/
theorem fifo_round_trip_witness :
    ∃ bc bs, cond_protected_buffer_init 2 = some bc ∧ sem_protected_buffer_init 2 = some bs ∧
      (∃ b, cond_run bc [Op.put 1, Op.put 2, Op.get, Op.get] =
          Except.ok ([Ret.unit, Ret.unit, Ret.pointer 1, Ret.pointer 2], b) ∧
        b.buffer.items = []) ∧
      (∃ b, sem_run bs [Op.put 1, Op.put 2, Op.get, Op.get] =
          Except.ok ([Ret.unit, Ret.unit, Ret.pointer 1, Ret.pointer 2], b) ∧
        b.buffer.items = []) :=
  fifo_round_trip 2 [1, 2] (by decide)

/-! ## Interleavings of the semaphore variant -/

/-- Replacing the state of one thread moves its weight. -/
theorem total_set (w : Pc → Nat) (l : List Pc) (i : Nat) (pc pc1 : Pc)
    (h : l[i]? = some pc) : total w (l.set i pc1) + w pc = total w l + w pc1 := by
  induction l generalizing i with
  | nil => simp at h
  | cons x xs ih =>
    cases i with
    | zero =>
      simp at h
      subst h
      simp [total]
      omega
    | succ j =>
      simp at h
      have := ih j h
      simp [total]
      omega

/-- The weight of a thread is part of the total. -/
theorem le_total (w : Pc → Nat) (l : List Pc) (i : Nat) (pc : Pc) (h : l[i]? = some pc) :
    w pc ≤ total w l := by
  induction l generalizing i with
  | nil => simp at h
  | cons x xs ih =>
    cases i with
    | zero =>
      simp at h
      subst h
      simp [total]
    | succ j =>
      simp at h
      have := ih j h
      simp [total]
      omega

/-- Idle threads hold nothing. -/
theorem total_replicate_idle (w : Pc → Nat) (hw : w Pc.idle = 0) (k : Nat) :
    total w (List.replicate k Pc.idle) = 0 := by
  induction k with
  | zero => rfl
  | succ k ih => simp [List.replicate_succ, total, hw, ih]

/-- Replacing the state of one thread keeps `stored_ok` when the new state has it. -/
theorem stored_ok_set (l : List Pc) (i : Nat) (pc1 : Pc) (h : ∀ pc ∈ l, pc.stored_ok)
    (h1 : pc1.stored_ok) : ∀ pc ∈ l.set i pc1, pc.stored_ok := by
  intro pc hpc
  rcases List.mem_or_eq_of_mem_set hpc with hm | rfl
  · exact h pc hm
  · exact h1

/-- The initial system satisfies the accounting invariant. -/
theorem init_inv (n : Int) (k : Nat) (s0 : System) (h : System.init n k = some s0) :
    s0.inv := by
  by_cases hn : n < 0
  · simp [System.init, sem_protected_buffer_init, circular_buffer_init, hn] at h
  · have hn0 : 0 ≤ n := by omega
    simp [System.init, sem_protected_buffer_init_eq n hn0] at h
    subst h
    refine ⟨?_, ?_, ?_⟩
    · simp [total_replicate_idle Pc.holds_empty rfl, circular_buffer_t.size]
    · simp [total_replicate_idle Pc.holds_full rfl, circular_buffer_t.size]
    · intro pc hpc
      rw [List.eq_of_mem_replicate hpc]
      exact True.intro

/-- Every move keeps the accounting invariant. -/
theorem step_inv (s s1 : System) (tid : Nat) (a : Action) (hi : s.inv)
    (h : s.step tid a = some s1) : s1.inv := by
  obtain ⟨h1, h2, h3⟩ := hi
  unfold System.step at h
  cases hpc : s.threads[tid]? with
  | none => simp [hpc] at h
  | some pc =>
    have hE := fun pc1 => total_set Pc.holds_empty s.threads tid pc pc1 hpc
    have hF := fun pc1 => total_set Pc.holds_full s.threads tid pc pc1 hpc
    have hlE := le_total Pc.holds_empty _ _ _ hpc
    have hlF := le_total Pc.holds_full _ _ _ hpc
    have hok := fun pc1 => stored_ok_set s.threads tid pc1 h3
    have hpcok := h3 pc (List.getElem?_mem hpc)
    rw [hpc] at h
    cases pc with
    | idle =>
      cases a with
      | enter op d abstime =>
        simp at h
        subst h
        have e1 := hE (Pc.entered op d abstime)
        have e2 := hF (Pc.entered op d abstime)
        simp [Pc.holds_empty, Pc.holds_full] at e1 e2
        exact ⟨by simp [e1, h1], by simp [e2, h2], hok _ True.intro⟩
      | next => simp at h
      | expire => simp at h
    | entered op d abstime =>
      have e1 := hE Pc.idle
      have e2 := hF Pc.idle
      have d1 := hE (Pc.decremented op d)
      have d2 := hF (Pc.decremented op d)
      simp only [Pc.holds_empty, Pc.holds_full] at e1 e2 d1 d2
      cases a with
      | enter op1 d1 a1 => simp at h
      | next =>
        simp only at h
        by_cases hr : (op = OpName.offer ∨ op = OpName.poll) ∧ ¬ abstime.valid
        · rw [if_pos hr] at h
          simp only [Option.some.injEq] at h
          subst h
          exact ⟨by simp only []; omega, by simp only []; omega, hok _ True.intro⟩
        · rw [if_neg hr] at h
          by_cases hc : 0 < sem_count op.entry_sem s.b
          · simp only [hc, if_true, Option.some.injEq] at h
            subst h
            cases hins : op.inserts <;>
              simp only [OpName.entry_sem, hins, sem_count, sem_set, if_true, if_false,
                Bool.false_eq_true] at hc d1 d2 ⊢ <;>
              exact ⟨by simp only []; omega, by simp only []; omega, hok _ True.intro⟩
          · simp only [hc, if_false] at h
            cases op <;> simp at h <;> subst h <;>
              exact ⟨by simp only []; omega, by simp only []; omega, hok _ True.intro⟩
      | expire =>
        simp only at h
        split at h
        · simp only [Option.some.injEq] at h
          subst h
          exact ⟨by simp only []; omega, by simp only []; omega, hok _ True.intro⟩
        · simp at h
    | decremented op d =>
      have d1 := hE (Pc.locked op d)
      have d2 := hF (Pc.locked op d)
      simp only [Pc.holds_empty, Pc.holds_full] at d1 d2
      cases a with
      | enter op1 d1 a1 => simp at h
      | expire => simp at h
      | next =>
        simp only at h
        split at h
        · simp only [Option.some.injEq] at h
          subst h
          exact ⟨by simp only []; omega, by simp only []; omega, hok _ True.intro⟩
        · simp at h
    | locked op d =>
      have d1 := hE (Pc.stored op d (Ret.int (circular_buffer_put s.b.buffer d).2))
      have d2 := hF (Pc.stored op d (Ret.int (circular_buffer_put s.b.buffer d).2))
      have g1 := hE (Pc.stored op d (Ret.pointer (circular_buffer_get s.b.buffer).2))
      have g2 := hF (Pc.stored op d (Ret.pointer (circular_buffer_get s.b.buffer).2))
      simp only [Pc.holds_empty, Pc.holds_full] at d1 d2 g1 g2 hlE hlF
      cases a with
      | enter op1 d1 a1 => simp at h
      | expire => simp at h
      | next =>
        simp only at h
        cases hins : op.inserts
        · simp only [hins, if_false, Bool.false_eq_true, Option.some.injEq] at h g1 g2 hlE hlF
          subst h
          have hsz := circular_buffer_get_size s.b.buffer
          have hmx := circular_buffer_get_max_size s.b.buffer
          refine ⟨by simp only []; omega, by simp only []; omega, hok _ ?_⟩
          simp [Pc.stored_ok, hins]
        · simp only [hins, if_true, Option.some.injEq] at h d1 d2 hlE hlF
          subst h
          have hne : s.b.buffer.size ≠ s.b.buffer.max_size := by omega
          have hsz := circular_buffer_put_size s.b.buffer d hne
          have hmx := circular_buffer_put_max_size s.b.buffer d
          refine ⟨by simp only []; omega, by simp only []; omega, hok _ ?_⟩
          simp [Pc.stored_ok, circular_buffer_put_room _ d hne]
    | stored op d res =>
      have d1 := hE (Pc.unlocked op d res)
      have d2 := hF (Pc.unlocked op d res)
      simp only [Pc.holds_empty, Pc.holds_full] at d1 d2
      cases a with
      | enter op1 d1 a1 => simp at h
      | expire => simp at h
      | next =>
        simp only [Option.some.injEq] at h
        subst h
        exact ⟨by simp only []; omega, by simp only []; omega, hok _ hpcok⟩
    | unlocked op d res =>
      have d1 := hE Pc.idle
      have d2 := hF Pc.idle
      simp only [Pc.holds_empty, Pc.holds_full] at d1 d2 hlE hlF
      cases a with
      | enter op1 d1 a1 => simp at h
      | expire => simp at h
      | next =>
        simp only [Option.some.injEq] at h
        subst h
        cases hins : op.inserts <;>
          simp only [OpName.exit_sem, hins, sem_post_count, sem_count, sem_set, if_true, if_false,
            Bool.false_eq_true] at d1 d2 hlE hlF ⊢ <;>
          exact ⟨by simp only []; omega, by simp only []; omega, hok _ True.intro⟩

/-- Every schedule keeps the accounting invariant. -/
theorem run_inv (sched : List (Nat × Action)) (s s1 : System) (hi : s.inv)
    (h : s.run sched = some s1) : s1.inv := by
  induction sched generalizing s with
  | nil =>
    simp [System.run] at h
    exact h ▸ hi
  | cons m rest ih =>
    obtain ⟨tid, a⟩ := m
    simp only [System.run] at h
    cases hs : s.step tid a with
    | none => simp [hs] at h
    | some s2 =>
      simp only [hs] at h
      exact ih s2 (step_inv s s2 tid a hi hs) h

/-- In every state the threads can reach, every positive count is backed by the
storage. -/
theorem reachable_eligible (n : Int) (k : Nat) (sched : List (Nat × Action))
    (s0 s : System) (h0 : System.init n k = some s0) (hrun : s0.run sched = some s) :
    sem_eligible s.b := by
  obtain ⟨h1, h2, -⟩ := run_inv sched s0 s (init_inv n k s0 h0) hrun
  exact ⟨fun h => by omega, fun h => by omega⟩

/-- Claim C10. In every state the threads can reach from
`sem_protected_buffer_init(n)` by interleaving the primitives of
`sem_protected_buffer_*` calls, a thread that has decremented `sem_empty` and is
about to call `circular_buffer_put` finds the storage not full, so that the call
returns 1 and inserts; a thread that has decremented `sem_full` and is about to
call `circular_buffer_get` finds the storage not empty; and the storage call every
inserting thread has made returned 1, so that `add` and `offer` return 1 only
after an insertion. -/
theorem decrement_proves_eligibility (n : Int) (k : Nat) (sched : List (Nat × Action))
    (s0 s : System) (h0 : System.init n k = some s0) (hrun : s0.run sched = some s)
    (tid : Nat) (op : OpName) (d : ptr) :
    (s.threads[tid]? = some (Pc.locked op d) →
      (op.inserts = true →
        s.b.buffer.size < s.b.buffer.max_size ∧ (circular_buffer_put s.b.buffer d).2 = 1) ∧
      (op.inserts = false → 0 < s.b.buffer.size)) ∧
    (∀ res, s.threads[tid]? = some (Pc.stored op d res) ∨
        s.threads[tid]? = some (Pc.unlocked op d res) →
      op.inserts = true → res = Ret.int 1) := by
  obtain ⟨h1, h2, h3⟩ := run_inv sched s0 s (init_inv n k s0 h0) hrun
  refine ⟨fun hpc => ⟨fun hins => ?_, fun hins => ?_⟩, fun res hpc hins => ?_⟩
  · have hl := le_total Pc.holds_empty _ _ _ hpc
    simp only [Pc.holds_empty, hins, if_true] at hl
    have hlt : s.b.buffer.size < s.b.buffer.max_size := by omega
    exact ⟨hlt, by rw [circular_buffer_put_room _ d (Nat.ne_of_lt hlt)]⟩
  · have hl := le_total Pc.holds_full _ _ _ hpc
    simp only [Pc.holds_full, hins, if_false, Bool.false_eq_true] at hl
    omega
  · rcases hpc with hpc | hpc
    · exact h3 _ (List.getElem?_mem hpc) hins
    · exact h3 _ (List.getElem?_mem hpc) hins

/-- Witness of C10: capacity 1 and two threads. In the first schedule thread 0
stands before `circular_buffer_put` inside `add`; in the second, thread 0 has
completed its `add` and thread 1 stands before `circular_buffer_get` inside `get`. -/
theorem decrement_proves_eligibility_witness :
    ((⟨1, []⟩ : circular_buffer_t).size < 1 ∧ (circular_buffer_put ⟨1, []⟩ 5).2 = 1) ∧
    0 < (⟨1, [5]⟩ : circular_buffer_t).size :=
  ⟨((decrement_proves_eligibility 1 2
      [(0, Action.enter OpName.add 5 ⟨0, 0⟩), (1, Action.enter OpName.offer 6 ⟨0, 0⟩),
       (0, Action.next),
       (1, Action.expire), (1, Action.enter OpName.get 0 ⟨0, 0⟩), (0, Action.next)]
      ⟨⟨⟨1, []⟩, 0, 1⟩, none, [Pc.idle, Pc.idle]⟩
      ⟨⟨⟨1, []⟩, 0, 0⟩, some 0, [Pc.locked OpName.add 5, Pc.entered OpName.get 0 ⟨0, 0⟩]⟩
      (by decide) (by decide) 0 OpName.add 5).1 (by decide)).1 rfl,
   ((decrement_proves_eligibility 1 2
      [(0, Action.enter OpName.add 5 ⟨0, 0⟩), (1, Action.enter OpName.offer 6 ⟨0, 0⟩),
       (0, Action.next),
       (1, Action.expire), (1, Action.enter OpName.get 0 ⟨0, 0⟩), (0, Action.next), (0, Action.next),
       (0, Action.next), (0, Action.next), (1, Action.next), (1, Action.next)]
      ⟨⟨⟨1, []⟩, 0, 1⟩, none, [Pc.idle, Pc.idle]⟩
      ⟨⟨⟨1, [5]⟩, 0, 0⟩, some 1, [Pc.idle, Pc.locked OpName.get 0]⟩
      (by decide) (by decide) 1 OpName.get 0).1 (by decide)).2 rfl⟩

end ProtectedBuffer
